import Mathlib

/-!
# svelte-bench TUI: execution bridge and progress aggregation

A shallow embedding of the Go sources under `tui/internal/bridge`,
`tui/internal/models` and `tui/internal/components`, with theorems about the
event decoder (`parser.go`), the worker runner (`runner.go`), the progress
aggregator (`benchmark.go`) and the key mask (`masked_input.go`).

Modelling conventions

* Go `int` fields are unbounded `Int`.  The only arithmetic performed on them
  by the embedded code is `m.currentCount++`, one step per processed event, so
  the 64-bit range is never left during a run; every other `int` is only
  compared and copied.
* Go `float64` fields (`PassAtOne`, `PassAtTen`) are only stored and copied by
  the embedded code; they are represented by the rational number they denote.
* `map[string]*TestResult` is an association list in some fixed order (Go
  leaves the iteration order of a map unspecified).  A Go map holds one entry
  per key and `NewBenchmarkModel` allocates one `TestResult` per key, so
  entries do not alias; a write through the pointer found under key `k` is a
  write to the entries stored under `k`.
* `*SharedState` is threaded through by value.
* Callbacks with side effects (`EventHandler`) are state transformers.
* Go `string` values that are only compared, copied and concatenated are Lean
  strings; where the code measures and slices a string by bytes (`MaskAPIKey`)
  it is a list of bytes.
* What the operating system, the worker process and the scheduler contribute
  (scanned lines, exit condition, captured standard error and whether it has
  arrived, the order of channel operations) is an explicit input.
* `bufio.Scanner` belongs to the Go standard library; `NewScanner` embeds what
  its documentation and source say of a scanner with the default buffer and
  the `ScanLines` split function: lines shorter than `MaxScanTokenSize` bytes
  are delivered in order, without their trailing carriage return; the first
  longer line ends the scan with `ErrTooLong`.
-/

namespace SvelteBench

/-! ## `bridge/parser.go` -/

/-- Go `type EventType string`. -/
abbrev EventType := String

def EventTestStart : EventType := "test_start"
def EventTestComplete : EventType := "test_complete"
def EventSampleProgress : EventType := "sample_progress"
def EventRateLimit : EventType := "rate_limit"
def EventError : EventType := "error"
def EventComplete : EventType := "complete"

/-- Go `BenchmarkEvent` (field `Type` is spelled `Typ`, `Type` being reserved;
`RawData` is tagged `json:"-"` and never read, so it is left out). -/
structure BenchmarkEvent where
  Typ : EventType := ""
  Test : String := ""
  Sample : Int := 0
  Total : Int := 0
  Passed : Bool := false
  RetryAfter : Int := 0
  Error : String := ""
  PassAtOne : ℚ := 0
  PassAtTen : ℚ := 0
  ResultsSaved : String := ""
deriving DecidableEq

/-! ## `models/types.go` -/

/-- Go `TestStatus` (an `iota` enumeration). -/
inductive TestStatus where
  | StatusQueued
  | StatusRunning
  | StatusRateLimit
  | StatusCompleted
  | StatusFailed
deriving DecidableEq, Repr

open TestStatus

/-- Go `TestResult`. -/
structure TestResult where
  TestName : String := ""
  Current : Int := 0
  Total : Int := 0
  Passed : Bool := false
  PassAtOne : ℚ := 0
  PassAtTen : ℚ := 0
  Status : TestStatus := StatusQueued
  RetryAfter : Int := 0
deriving DecidableEq

/-- Go `SharedState`, without the `Config` pointer (its type is declared
outside the embedded files and the embedded code never reads it). -/
structure SharedState where
  Provider : String := ""
  ProviderKey : String := ""
  Model : String := ""
  Parallel : Bool := false
  Results : List TestResult := []
  Completed : Bool := false
  Error : String := ""
deriving DecidableEq

/-! ## `models/benchmark.go` -/

/-- The `map[string]*TestResult` of `BenchmarkModel`. -/
abbrev TestMap := List (String × TestResult)

/-- Go `test, ok := m.tests[k]`. -/
def TestMap.get (ts : TestMap) (k : String) : Option TestResult :=
  match ts with
  | [] => none
  | (k', t) :: rest => if k' = k then some t else TestMap.get rest k

/-- Go `if test, ok := m.tests[k]; ok { ...writes through test... }`. -/
def TestMap.modify (ts : TestMap) (k : String) (f : TestResult → TestResult) : TestMap :=
  ts.map (fun p => if p.1 = k then (p.1, f p.2) else p)

/-- Go `for _, test := range m.tests { ...writes through test... }`. -/
def TestMap.forEach (ts : TestMap) (f : TestResult → TestResult) : TestMap :=
  ts.map (fun p => (p.1, f p.2))

/-- The set of keys of the map, in storage order. -/
def TestMap.keys (ts : TestMap) : List String := ts.map Prod.fst

/-- Go `BenchmarkModel`.  `startTime` is `none` for the zero `time.Time`;
the channel `eventChan` is modelled separately from the model value. -/
structure BenchmarkModel where
  state : SharedState
  tests : TestMap
  testOrder : List String
  startTime : Option Int := none
  running : Bool := false
  totalSamples : Int
  currentCount : Int := 0
  width : Int := 80
  height : Int := 24
  frame : Int := 0
deriving DecidableEq

/-- The literal `testNames` of `NewBenchmarkModel`. -/
def testNames : List String :=
  ["hello-world", "counter", "derived", "derived-by",
   "each", "effect", "props", "snippets", "inspect"]

/-- Go `NewBenchmarkModel`. -/
def NewBenchmarkModel (state : SharedState) : BenchmarkModel :=
  { state := state
    tests := testNames.map (fun name =>
      (name, { TestName := name, Total := 10, Current := 0, Status := StatusQueued }))
    testOrder := testNames
    totalSamples := (testNames.length : Int) * 10
    running := false
    width := 80
    height := 24 }

/-- Go `(*BenchmarkModel).handleEvent`.  In the `Complete` case `Results` is
filled in the storage order of the list that stands for the map; Go ranges over
the map in an unspecified order, so only what does not depend on the order of
`Results` carries over to the program. -/
def handleEvent (m : BenchmarkModel) (event : BenchmarkEvent) : BenchmarkModel :=
  if event.Typ = EventTestStart then
    match m.tests.get event.Test with
    | some _ =>
      { m with
        tests := m.tests.modify event.Test
          (fun test => { test with Status := StatusRunning, Current := 0 }) }
    | none => m
  else if event.Typ = EventSampleProgress then
    match m.tests.get event.Test with
    | some test =>
      { m with
        currentCount :=
          if event.Sample > test.Current then m.currentCount + 1 else m.currentCount,
        tests := m.tests.modify event.Test
          (fun test => { test with Current := event.Sample }) }
    | none => m
  else if event.Typ = EventTestComplete then
    match m.tests.get event.Test with
    | some _ =>
      { m with
        tests := m.tests.modify event.Test
          (fun test =>
            { test with
              Current := event.Total,
              Passed := event.Passed,
              PassAtOne := event.PassAtOne,
              PassAtTen := event.PassAtTen,
              Status := if event.Passed then StatusCompleted else StatusFailed }) }
    | none => m
  else if event.Typ = EventRateLimit then
    { m with
      tests := m.tests.forEach
        (fun test =>
          if test.Status = StatusRunning then
            { test with Status := StatusRateLimit, RetryAfter := event.RetryAfter }
          else test) }
  else if event.Typ = EventError then
    { m with running := false, state := { m.state with Error := event.Error } }
  else if event.Typ = EventComplete then
    { m with state := { m.state with Results := m.tests.map Prod.snd } }
  else m

/-- Feeding a sequence of events to `handleEvent`, oldest first. -/
def handleEvents (m : BenchmarkModel) (events : List BenchmarkEvent) : BenchmarkModel :=
  events.foldl handleEvent m

/-- Go `ResultsModel` (`models/results.go`). -/
structure ResultsModel where
  state : SharedState
  selectedOption : Int := 0
  width : Int := 80
  height : Int := 24
deriving DecidableEq

/-- Go `NewResultsModel`. -/
def NewResultsModel (state : SharedState) : ResultsModel :=
  { state := state, selectedOption := 0, width := 80, height := 24 }

/-- The `tea.Msg` values `BenchmarkModel.Update` distinguishes.  `benchmarkStartMsg`
carries the value `time.Now()` returns while it is handled; `tick` is a
`time.Time` message; `other` is any other message. -/
inductive Msg where
  | WindowSizeMsg (Width Height : Int)
  | KeyMsg (key : String)
  | benchmarkStartMsg (now : Int)
  | benchmarkEventMsg (event : BenchmarkEvent)
  | benchmarkErrorMsg (err : String)
  | benchmarkCompleteMsg
  | tick
  | other
deriving DecidableEq

/-- The `tea.Cmd` values `BenchmarkModel.Update` returns. -/
inductive Cmd where
  | none
  | Quit
  | waitForEvent
  | tickCmd
deriving DecidableEq

/-- The `tea.Model` values `BenchmarkModel.Update` returns. -/
inductive Model where
  | benchmark (m : BenchmarkModel)
  | results (r : ResultsModel)
deriving DecidableEq

/-- The shared state a returned model points to. -/
def Model.state : Model → SharedState
  | .benchmark m => m.state
  | .results r => r.state

/-- Go `BenchmarkModel.Update`. -/
def Update (m : BenchmarkModel) (msg : Msg) : Model × Cmd :=
  match msg with
  | .WindowSizeMsg w h => (.benchmark { m with width := w, height := h }, .none)
  | .KeyMsg key =>
    if key = "ctrl+c" then (.benchmark m, .Quit) else (.benchmark m, .tickCmd)
  | .benchmarkStartMsg now =>
    if !m.running then (.benchmark { m with running := true, startTime := some now }, .none)
    else (.benchmark m, .none)
  | .benchmarkEventMsg event => (.benchmark (handleEvent m event), .waitForEvent)
  | .benchmarkErrorMsg err =>
    (.benchmark { m with running := false, state := { m.state with Error := err } }, .none)
  | .benchmarkCompleteMsg =>
    (.results (NewResultsModel { m.state with Completed := true }), .none)
  | .tick => (.benchmark { m with frame := m.frame + 1 }, .tickCmd)
  | .other => (.benchmark m, .tickCmd)

/-- The consumer side of `eventChan`: the events buffered in the channel, oldest
first, and whether the producer has closed it. -/
structure Chan where
  buf : List BenchmarkEvent
  closed : Bool
deriving DecidableEq

/-- Go `BenchmarkModel.waitForEvent`: the message produced by the receive
`event, ok := <-m.eventChan`, with the channel after it; `none` while the
receive blocks (channel empty and open). -/
def waitForEvent (ch : Chan) : Option (Msg × Chan) :=
  match ch.buf with
  | event :: rest => some (.benchmarkEventMsg event, { ch with buf := rest })
  | [] => if ch.closed then some (.benchmarkCompleteMsg, ch) else none

/-- The presentation loop on the channel contents `ch`: pull with
`waitForEvent`, hand the message to `Update`, and pull again as long as
`Update` answers with the `waitForEvent` command.  `fuel` bounds the number of
pulls. -/
def eventLoop (fuel : Nat) (m : BenchmarkModel) (ch : Chan) : Model :=
  match fuel with
  | 0 => .benchmark m
  | fuel + 1 =>
    match waitForEvent ch with
    | none => .benchmark m
    | some (msg, ch') =>
      match Update m msg with
      | (.benchmark m', .waitForEvent) => eventLoop fuel m' ch'
      | (model, _) => model

/-- The presentation loop run until the channel contents `ch` are used up: one
pull per buffered event and one more for the closed channel. -/
def presentationLoop (m : BenchmarkModel) (ch : Chan) : Model :=
  eventLoop (ch.buf.length + 1) m ch

/-! ## `bridge/parser.go`: the line decoder -/

/-- What `bufio.Scanner` delivers from a stream: the lines for which `Scan`
returns true, in order, and the value of `scanner.Err()` after `Scan` has
returned false.  These are not the lines of the stream itself: `NewScanner`
below gives the scanner that `bufio.NewScanner` makes of a stream of output
lines, with the token limit of the default buffer. -/
structure Scanner where
  lines : List String
  err : Option String

/-- What a process writes on a pipe, as `bufio.ScanLines` cuts it up: the lines,
each the text between two line feeds (the last one possibly unterminated), and
the error of the underlying `Read` that ends the stream, none when the stream
ends with `io.EOF`. -/
structure OutputStream where
  lines : List String
  readErr : Option String := none

/-- Go `bufio.MaxScanTokenSize`, the size to which the buffer of a scanner made by
`bufio.NewScanner` can grow; neither `ParseEvents` nor `ParseEventStream` calls
`scanner.Buffer` to raise it. -/
def MaxScanTokenSize : Nat := 64 * 1024

/-- The text of Go `bufio.ErrTooLong`. -/
def ErrTooLong : String := "bufio.Scanner: token too long"

/-- Go `dropCR` of `bufio.ScanLines`: a trailing carriage return is not part of
the line delivered. -/
def dropCR (line : String) : String :=
  if line.data.getLast? = some '\r' then String.mk line.data.dropLast else line

/-- The scanning of the lines of a stream by a scanner with the default buffer.  A
line is delivered, without its trailing carriage return, when it and its line
feed fit into the buffer, that is when it is shorter than `MaxScanTokenSize`
bytes; at the first line that is not, `Scan` returns false with `ErrTooLong`
and nothing of the rest of the stream is delivered.  When every line has been
delivered, `scanner.Err()` is the read error of the stream. -/
def scanLines (readErr : Option String) : List String → Scanner
  | [] => ⟨[], readErr⟩
  | line :: rest =>
    if line.utf8ByteSize < MaxScanTokenSize then
      ⟨dropCR line :: (scanLines readErr rest).lines, (scanLines readErr rest).err⟩
    else ⟨[], some ErrTooLong⟩

/-- Go `bufio.NewScanner(stream)`, as `ParseEvents` and `ParseEventStream` call
it. -/
def NewScanner (stream : OutputStream) : Scanner := scanLines stream.readErr stream.lines

/-- The loop `for scanner.Scan() { ... }` shared by `ParseEvents` and
`ParseEventStream`.  `unmarshal line` is `some event` when
`json.Unmarshal([]byte(line), &event)` returns a nil error; `handler` is the
callback, acting on a state `σ`. -/
def scanLoop {σ : Type} (unmarshal : String → Option BenchmarkEvent)
    (handler : σ → BenchmarkEvent → σ) : List String → σ → σ
  | [], s => s
  | line :: rest, s =>
    match unmarshal line with
    | none => scanLoop unmarshal handler rest s
    | some event => scanLoop unmarshal handler rest (handler s event)

/-- Go `ParseEvents`: the state the callback leaves and the returned error. -/
def ParseEvents {σ : Type} (unmarshal : String → Option BenchmarkEvent)
    (reader : Scanner) (callback : σ → BenchmarkEvent → σ) (s : σ) : σ × Option String :=
  (scanLoop unmarshal callback reader.lines s, reader.err)

/-- Go `ParseEventStream`: the state the handler leaves and the returned error. -/
def ParseEventStream {σ : Type} (unmarshal : String → Option BenchmarkEvent)
    (stream : Scanner) (handler : σ → BenchmarkEvent → σ) (s : σ) : σ × Option String :=
  let s' := scanLoop unmarshal handler stream.lines s
  match stream.err with
  | some err => (s', some ("error reading stream: " ++ err))
  | none => (s', none)

/-- A handler that records the events it is called with, in call order. -/
def recordCall (calls : List BenchmarkEvent) (event : BenchmarkEvent) : List BenchmarkEvent :=
  calls ++ [event]

/-! ## `bridge/runner.go` and the producer side of `eventChan` -/

/-- The capacity of `eventChan`: `make(chan bridge.BenchmarkEvent, 100)` in
`NewBenchmarkModel`. -/
def eventChanCap : Nat := 100

/-- Go `make(chan bridge.BenchmarkEvent, 100)`: the empty, open channel. -/
def Chan.empty : Chan := ⟨[], false⟩

/-- Go `select { case m.eventChan <- event: default: }`, the non-blocking send of
`runBenchmark`: the event goes to the tail of the buffer when there is room and
the `default` branch is taken, leaving the channel as it is, when there is none. -/
def Chan.offer (ch : Chan) (event : BenchmarkEvent) : Chan :=
  if ch.buf.length < eventChanCap then { ch with buf := ch.buf ++ [event] } else ch

/-- Go `close(m.eventChan)`. -/
def Chan.close (ch : Chan) : Chan := { ch with closed := true }

/-- What the operating system and the worker process do during one call of
`RunBenchmark`: the errors of `getProjectRoot`, `cmd.StdoutPipe`,
`cmd.StderrPipe` and `cmd.Start` if any, what the scanner delivers from the
worker's standard output, the error of `cmd.Wait` if any (for instance
`exit status 1`), the text `io.ReadAll(stderr)` returns to the capture
goroutine, and whether that goroutine has finished (sent the text on
`stderrChan`, or closed it when the text is empty) by the time `RunBenchmark`
polls `stderrChan` after `cmd.Wait`. -/
structure WorkerRun where
  projectRootErr : Option String := none
  stdoutPipeErr : Option String := none
  stderrPipeErr : Option String := none
  startErr : Option String := none
  stdout : Scanner
  waitErr : Option String := none
  stderrText : String := ""
  stderrReady : Bool := true

/-- Go `RunBenchmark`: the state `eventHandler` leaves and the returned error.
The decode goroutine sends every decoded event on a blocking channel that the
main loop ranges over, so `eventHandler` is called with the events
`ParseEventStream` decodes, in order.  The poll of `stderrChan` receives
`stderrText` when the capture goroutine has finished (the empty text from the
closed channel) and takes the `default` branch otherwise.  The environment and
the debug log written on the way do not influence the result. -/
def RunBenchmark {σ : Type} (unmarshal : String → Option BenchmarkEvent) (run : WorkerRun)
    (eventHandler : σ → BenchmarkEvent → σ) (s : σ) : σ × Option String :=
  match run.projectRootErr with
  | some err => (s, some ("failed to get project root: " ++ err))
  | none =>
    match run.stdoutPipeErr with
    | some err => (s, some ("failed to get stdout pipe: " ++ err))
    | none =>
      match run.stderrPipeErr with
      | some err => (s, some ("failed to get stderr pipe: " ++ err))
      | none =>
        match run.startErr with
        | some err => (s, some ("failed to start command: " ++ err))
        | none =>
          let parsed := ParseEventStream unmarshal run.stdout eventHandler s
          match run.stderrReady, run.waitErr with
          | true, some waitErr =>
            (parsed.1, some ("command failed: " ++ waitErr ++ "\nstderr: " ++ run.stderrText))
          | _, some waitErr => (parsed.1, some ("command failed: " ++ waitErr))
          | _, none => (parsed.1, parsed.2)

/-- The goroutine started by `BenchmarkModel.runBenchmark`, run to its end with
no pull in between: every event `RunBenchmark` hands over is offered to the
channel, a returned error is offered as an `Error` event, and the channel is
closed. -/
def runBenchmark (unmarshal : String → Option BenchmarkEvent) (run : WorkerRun)
    (ch : Chan) : Chan :=
  let r := RunBenchmark unmarshal run Chan.offer ch
  match r.2 with
  | some err => (r.1.offer { Typ := EventError, Error := err }).close
  | none => r.1.close

/-- The events the goroutine of `runBenchmark` offers to the channel, in order:
the events `RunBenchmark` hands to its handler, then the `Error` event made of
the returned error, if any. -/
def producerEvents (unmarshal : String → Option BenchmarkEvent) (run : WorkerRun) :
    List BenchmarkEvent :=
  let r := RunBenchmark unmarshal run recordCall []
  match r.2 with
  | some err => r.1 ++ [{ Typ := EventError, Error := err }]
  | none => r.1

/-- The producer goroutine and the presentation loop around `eventChan`:
the channel, the events the producer has still to offer (oldest first; it closes
the channel when none is left), and the messages `waitForEvent` has returned so
far. -/
structure Bridge where
  chan : Chan
  pending : List BenchmarkEvent
  received : List Msg
deriving DecidableEq

/-- Whose channel operation comes next. -/
inductive Turn where
  | producer
  | consumer
deriving DecidableEq

/-- One channel operation.  The producer offers its next event, or closes the
channel when it has none left (after which it has ended).  The consumer pulls
with `waitForEvent`, unless it has already been told that the channel is closed;
a pull on an empty open channel stays blocked. -/
def Bridge.step (b : Bridge) : Turn → Bridge
  | .producer =>
    match b.pending with
    | event :: rest => { b with chan := b.chan.offer event, pending := rest }
    | [] => { b with chan := b.chan.close }
  | .consumer =>
    if Msg.benchmarkCompleteMsg ∈ b.received then b
    else
      match waitForEvent b.chan with
      | none => b
      | some (msg, ch) => { b with chan := ch, received := b.received ++ [msg] }

/-- The start of a run: empty open channel, nothing received, the producer
about to offer `events`. -/
def Bridge.start (events : List BenchmarkEvent) : Bridge :=
  { chan := Chan.empty, pending := events, received := [] }

/-- An interleaving of producer and consumer operations. -/
def Bridge.run (b : Bridge) (turns : List Turn) : Bridge :=
  turns.foldl Bridge.step b

/-- The event carried by a message of `waitForEvent`, if it carries one. -/
def Msg.eventOf : Msg → Option BenchmarkEvent
  | .benchmarkEventMsg event => some event
  | _ => none

/-- The events the consumer has received, in order of arrival. -/
def Bridge.receivedEvents (b : Bridge) : List BenchmarkEvent :=
  b.received.filterMap Msg.eventOf

/-- The event the producer's offer discards at this turn: the event it offers, when
the queue holds `eventChanCap` events at that moment; nothing at any other turn. -/
def Bridge.dropAt (b : Bridge) : Turn → List BenchmarkEvent
  | .producer =>
    match b.pending with
    | event :: _ => if b.chan.buf.length < eventChanCap then [] else [event]
    | [] => []
  | .consumer => []

/-- The events discarded along an interleaving, in the order in which they are
discarded. -/
def Bridge.dropped (b : Bridge) : List Turn → List BenchmarkEvent
  | [] => []
  | turn :: rest => b.dropAt turn ++ Bridge.dropped (b.step turn) rest

/-- The invariant of the bridge for a producer that set out to offer `events`:
what has been received, what is buffered and what is still to be offered form,
in this order, a subsequence of `events`; the channel is closed only when the
producer has nothing left; the closed sentinel has been returned only when the
buffer is empty and the channel closed; and the sentinel, if received, is the
last message received. -/
structure Bridge.Inv (events : List BenchmarkEvent) (b : Bridge) : Prop where
  sub : List.Sublist (b.receivedEvents ++ b.chan.buf ++ b.pending) events
  closedDone : b.chan.closed = true → b.pending = []
  sentinel : Msg.benchmarkCompleteMsg ∈ b.received → b.chan.buf = [] ∧ b.chan.closed = true
  shape : b.received = b.receivedEvents.map Msg.benchmarkEventMsg ∨
    b.received = b.receivedEvents.map Msg.benchmarkEventMsg ++ [Msg.benchmarkCompleteMsg]

/-! ## `models/benchmark.go`: the stats line of `View` -/

/-- The stats line of `BenchmarkModel.View`.  `elapsedStr` is
`formatDuration(time.Since(m.startTime))` and `remaining` is the formatted
remaining-time estimate; both come from the wall clock through `float64`
arithmetic and are taken as given. -/
def statsLine (m : BenchmarkModel) (elapsedStr remaining : String) : String :=
  if m.running && m.startTime.isSome then
    if m.currentCount > 0 && m.currentCount < m.totalSamples then
      "⏱ " ++ elapsedStr ++ " Elapsed • " ++ remaining ++ " Remaining"
    else
      "⏱ " ++ elapsedStr ++ " Elapsed"
  else
    "⏱ Starting..."

/-! ## `bridge/runner.go`: the worker's environment and the debug log -/

/-- Go `BenchmarkConfig`.  `APIKeys` is the map in the order in which
`range config.APIKeys` visits it. -/
structure BenchmarkConfig where
  Provider : String := ""
  Model : String := ""
  APIKeys : List (String × String) := []
  Parallel : Bool := false
  Samples : Int := 0
  ContextFile : String := ""
deriving DecidableEq

/-- The environment being built for the worker and the text written to the
debug log so far. -/
structure Setup where
  env : List String
  log : String
deriving DecidableEq

/-- Go `if debugLog != nil { fmt.Fprintf(debugLog, ...) }`; `logOpen` tells
whether `os.Create` returned a file. -/
def Setup.logf (s : Setup) (logOpen : Bool) (text : String) : Setup :=
  if logOpen then { s with log := s.log ++ text } else s

/-- Go `env = append(env, entry)`. -/
def Setup.appendEnv (s : Setup) (entry : String) : Setup :=
  { s with env := s.env ++ [entry] }

/-- The part of `RunBenchmark` between `getProjectRoot` and `cmd.StdoutPipe`
(lines 29 to 93): the environment handed to the worker, built from the
inherited `os.Environ()`, and the text written to the debug log on the way. -/
def RunBenchmark.setup (projectRoot : String) (environ : List String) (logOpen : Bool)
    (config : BenchmarkConfig) : Setup :=
  let s : Setup := { env := [], log := "" }
  let s := s.logf logOpen "=== TUI Debug Log ===\n"
  let s := s.logf logOpen ("Project root: " ++ projectRoot ++ "\n")
  let s := s.logf logOpen ("Provider: " ++ config.Provider ++ "\n")
  let s := s.logf logOpen ("Model: " ++ config.Model ++ "\n")
  let s := s.logf logOpen ("Samples: " ++ toString config.Samples ++ "\n")
  let s := s.logf logOpen ("Parallel: " ++ toString config.Parallel ++ "\n")
  let s := s.logf logOpen "Command: pnpm run-tests\n"
  let s := s.logf logOpen ("Working directory: " ++ projectRoot ++ "\n\n")
  let s := { s with env := environ }
  let s := config.APIKeys.foldl
    (fun s kv => (s.appendEnv (kv.1 ++ "=" ++ kv.2)).logf logOpen ("ENV: " ++ kv.1 ++ "=***\n")) s
  let s := s.appendEnv "TUI_MODE=true"
  let s := s.logf logOpen "ENV: TUI_MODE=true\n"
  let s := s.appendEnv "DEBUG_MODE=true"
  let s := s.appendEnv ("DEBUG_PROVIDER=" ++ config.Provider)
  let s := s.appendEnv ("DEBUG_MODEL=" ++ config.Model)
  let s := s.appendEnv ("DEBUG_SAMPLES=" ++ toString config.Samples)
  let s := s.logf logOpen "ENV: DEBUG_MODE=true\n"
  let s := s.logf logOpen ("ENV: DEBUG_PROVIDER=" ++ config.Provider ++ "\n")
  let s := s.logf logOpen ("ENV: DEBUG_MODEL=" ++ config.Model ++ "\n")
  let s := s.logf logOpen ("ENV: DEBUG_SAMPLES=" ++ toString config.Samples ++ "\n")
  let s := if config.Parallel then
      (s.appendEnv "PARALLEL_EXECUTION=true").logf logOpen "ENV: PARALLEL_EXECUTION=true\n"
    else s
  s.logf logOpen "\n=== Starting command ===\n"

/-- The debug log lines of the secrets named `names`: `ENV: <name>=***` each. -/
def secretLogLines : List String → String
  | [] => ""
  | name :: rest => "ENV: " ++ name ++ "=***\n" ++ secretLogLines rest

/-- Go `FormatDuration` (`bridge/runner.go`); `/` and `%` of Go truncate towards
zero. -/
def FormatDuration (seconds : Int) : String :=
  if seconds < 60 then toString seconds ++ "s"
  else
    let minutes := seconds.tdiv 60
    let secs := seconds.tmod 60
    if minutes < 60 then toString minutes ++ "m " ++ toString secs ++ "s"
    else
      let hours := minutes.tdiv 60
      let mins := minutes.tmod 60
      toString hours ++ "h " ++ toString mins ++ "m"

/-- The reference definition of the duration format, in the words of the claim
it is compared with: `<s>s` below one minute, `<s/60>m <s%60>s` below one hour,
`<s/3600>h <(s/60)%60>m` from one hour on. -/
def FormatDurationRef (s : Nat) : String :=
  if s < 60 then toString s ++ "s"
  else if s < 3600 then toString (s / 60) ++ "m " ++ toString (s % 60) ++ "s"
  else toString (s / 3600) ++ "h " ++ toString (s / 60 % 60) ++ "m"

/-! ## `components/masked_input.go` -/

/-- A Go `string`: a sequence of bytes; `len` is its number of bytes and slicing
cuts at byte offsets. -/
abbrev GoString := List UInt8

/-- The string literal `"•"` (U+2022), three bytes in UTF-8. -/
def bullet : GoString := [0xE2, 0x80, 0xA2]

/-- Go `strings.Repeat`. -/
def stringsRepeat (s : GoString) (count : Nat) : GoString :=
  (List.replicate count s).flatten

/-- Go `MaskAPIKey`. -/
def MaskAPIKey (key : GoString) : GoString :=
  if key.length ≤ 8 then stringsRepeat bullet key.length
  else
    let masked := stringsRepeat bullet (key.length - 8)
    masked ++ key.drop (key.length - 8)

/-! ## The per-test event protocol of the worker -/

/-- Where a test stands in the protocol "at most one `TestStart`, then
`SampleProgress` events with strictly increasing indices within 1..10, then at
most one `TestComplete`": nothing received yet; `TestStart` or samples received,
`last` being the last sample index (0 when there is none yet); `TestComplete`
received. -/
inductive Phase where
  | fresh
  | sampling (last : Int)
  | finished
deriving DecidableEq

/-- The phase of a test after it receives `event`, or `none` when the event does
not fit the protocol. -/
def Phase.next (p : Phase) (event : BenchmarkEvent) : Option Phase :=
  if event.Typ = EventTestStart then
    match p with
    | .fresh => some (.sampling 0)
    | .sampling _ => none
    | .finished => none
  else if event.Typ = EventSampleProgress then
    match p with
    | .fresh =>
      if 1 ≤ event.Sample ∧ event.Sample ≤ 10 then some (.sampling event.Sample) else none
    | .sampling last =>
      if last < event.Sample ∧ 1 ≤ event.Sample ∧ event.Sample ≤ 10 then
        some (.sampling event.Sample)
      else none
    | .finished => none
  else if event.Typ = EventTestComplete then
    match p with
    | .fresh => some .finished
    | .sampling _ => some .finished
    | .finished => none
  else none

/-- Whether a sequence of events of any kinds, those of different tests
interleaved in any way, keeps every known test within the protocol; `proto`
gives the phase of each test before the sequence.  Only the `TestStart`,
`SampleProgress` and `TestComplete` events that name a known test move a test
through the protocol; every other event (`RateLimit`, `Error`, `Complete`, an
event of an unknown kind, an event naming an unknown test) is passed over. -/
def followsProtocol (proto : String → Phase) : List BenchmarkEvent → Bool
  | [] => true
  | event :: rest =>
    if event.Test ∈ testNames ∧
        (event.Typ = EventTestStart ∨ event.Typ = EventSampleProgress ∨
          event.Typ = EventTestComplete) then
      match (proto event.Test).next event with
      | some p => followsProtocol (fun t => if t = event.Test then p else proto t) rest
      | none => false
    else followsProtocol proto rest

/-- The events a test receives: the `TestStart`, `SampleProgress` and
`TestComplete` events of a sequence that name it, in order. -/
def eventsOf (test : String) (events : List BenchmarkEvent) : List BenchmarkEvent :=
  events.filter (fun e => e.Test = test ∧
    (e.Typ = EventTestStart ∨ e.Typ = EventSampleProgress ∨ e.Typ = EventTestComplete))

/-- The phase a test reaches by receiving `events` in order, or `none` when one
of them does not fit the protocol. -/
def Phase.run (p : Phase) : List BenchmarkEvent → Option Phase
  | [] => some p
  | event :: rest =>
    match p.next event with
    | some q => Phase.run q rest
    | none => none

/-- The events one test receives keep to the protocol: at most one `TestStart`,
followed by `SampleProgress` events with strictly increasing indices within
1..10, followed by at most one `TestComplete`. -/
def PerTestPattern (events : List BenchmarkEvent) : Prop :=
  ∃ start mid done : List BenchmarkEvent,
    events = start ++ mid ++ done ∧
    start.length ≤ 1 ∧ (∀ e ∈ start, e.Typ = EventTestStart) ∧
    (∀ e ∈ mid, e.Typ = EventSampleProgress ∧ 1 ≤ e.Sample ∧ e.Sample ≤ 10) ∧
    (mid.map (fun e => e.Sample)).Pairwise (fun a b => a < b) ∧
    done.length ≤ 1 ∧ (∀ e ∈ done, e.Typ = EventTestComplete)

/-- The number of `SampleProgress` events in a sequence. -/
def sampleProgressCount (events : List BenchmarkEvent) : Nat :=
  (events.filter (fun e => e.Typ = EventSampleProgress)).length

/-- The number of `SampleProgress` events in a sequence that name a known test. -/
def knownSampleCount (events : List BenchmarkEvent) : Nat :=
  (events.filter (fun e => e.Typ = EventSampleProgress ∧ e.Test ∈ testNames)).length

/-- The highest value the global counter can have reached when a test is in
phase `p`. -/
def Phase.credit : Phase → Int
  | .fresh => 0
  | .sampling last => last
  | .finished => 10

/-- The sum of the credits of the known tests. -/
def creditSum (proto : String → Phase) : Int :=
  (testNames.map (fun t => (proto t).credit)).sum

/-- The protocol phases `proto` describe the model `m`: every known test is
tracked, with current count 0 while it is fresh and its last sample index while
it is sampling; sample indices lie within 0..10; the global counter is covered
by the credits; and the tracked tests are the known tests. -/
structure ProtoInv (m : BenchmarkModel) (proto : String → Phase) : Prop where
  tracked : ∀ t ∈ testNames, ∃ tr, m.tests.get t = some tr ∧
    (proto t = Phase.fresh → tr.Current = 0) ∧
    (∀ last, proto t = Phase.sampling last → tr.Current = last)
  range : ∀ t, 0 ≤ (proto t).credit ∧ (proto t).credit ≤ 10
  bound : m.currentCount ≤ creditSum proto
  keys : m.tests.keys = testNames

/-! ## Scenario inputs -/

/-- The event `TestStart{test}`. -/
def evTestStart (test : String) : BenchmarkEvent :=
  { Typ := EventTestStart, Test := test }

/-- The event `SampleProgress{test, sample, total}`. -/
def evSampleProgress (test : String) (sample total : Int) : BenchmarkEvent :=
  { Typ := EventSampleProgress, Test := test, Sample := sample, Total := total }

/-- The event `RateLimit{retryAfter}`. -/
def evRateLimit (retryAfter : Int) : BenchmarkEvent :=
  { Typ := EventRateLimit, RetryAfter := retryAfter }

/-- The event `Error{error}`. -/
def evError (text : String) : BenchmarkEvent :=
  { Typ := EventError, Error := text }

/-- The event `Complete{}`. -/
def evComplete : BenchmarkEvent :=
  { Typ := EventComplete }

/-- The event `TestComplete{test, passed, passAtOne}`, no other field present. -/
def evTestComplete (test : String) (passed : Bool) (passAtOne : ℚ) : BenchmarkEvent :=
  { Typ := EventTestComplete, Test := test, Passed := passed, PassAtOne := passAtOne }

/-- `SampleProgress` events for `test` carrying the sample indices `indices`, in order. -/
def sampleEvents (test : String) (indices : List Int) (total : Int) : List BenchmarkEvent :=
  indices.map (fun i => evSampleProgress test i total)

/-- The worker output of the end-to-end scenario: `TestStart{counter}`, ten
`SampleProgress{counter, total:10}` with indices 1 to 10, `TestComplete{counter,
passed:true, passAtOne:0.8}` and `Complete{}`. -/
def endToEndEvents : List BenchmarkEvent :=
  [evTestStart "counter"] ++ sampleEvents "counter" [1, 2, 3, 4, 5, 6, 7, 8, 9, 10] 10 ++
    [evTestComplete "counter" true 0.8, evComplete]

/-- The global counter after each prefix of `events`, the empty prefix first. -/
def countTrace (m : BenchmarkModel) (events : List BenchmarkEvent) : List Int :=
  (List.range (events.length + 1)).map (fun n => (handleEvents m (events.take n)).currentCount)

/-- The output line `{"type":"error","error":"boom"}`. -/
def errorLine : String := "\x7b\"type\":\"error\",\"error\":\"boom\"\x7d"

/-- The output line
`{"type":"sample_progress","test":"counter","sample":1,"total":10}`. -/
def sampleLine : String :=
  "\x7b\"type\":\"sample_progress\",\"test\":\"counter\",\"sample\":1,\"total\":10\x7d"

/-- An output line of 70000 bytes that is not JSON: the letter `x`, 70000 times. -/
def longLine : String := String.mk (List.replicate 70000 'x')

/-- What `json.Unmarshal` makes of the lines used in the scenarios: the two JSON
objects above decode to their events, and the plain-text lines of the scenarios
(`npm warn`, `Running tests...`) are rejected. -/
def scenarioUnmarshal (line : String) : Option BenchmarkEvent :=
  if line = errorLine then some (evError "boom")
  else if line = sampleLine then some (evSampleProgress "counter" 1 10)
  else none

/-- The text `text` contains `part` verbatim, as a contiguous substring. -/
def containsText (text part : String) : Prop := part.data <:+: text.data

instance (text part : String) : Decidable (containsText text part) := by
  unfold containsText; infer_instance

/-- The queue-overflow run: the worker prints 150 event lines, then exits with
status 1; nothing has been captured from standard error when it is polled. -/
def overflowRun : WorkerRun :=
  { stdout := ⟨List.replicate 150 sampleLine, none⟩
    waitErr := some "exit status 1"
    stderrText := ""
    stderrReady := false }

/-- A run in which the worker prints a diagnostic line and the event
`Error{error: "boom"}`, writes `trace` to standard error and exits with status 1. -/
def errorThenExitRun : WorkerRun :=
  { stdout := ⟨["Running tests...", errorLine], none⟩
    waitErr := some "exit status 1"
    stderrText := "trace"
    stderrReady := true }

/-- The worker prints no `Error` event, writes `rate limit exceeded` to standard
error and exits with status 1; `captured` tells whether the captured text has
reached `stderrChan` when `RunBenchmark` polls it. -/
def rateLimitExitRun (captured : Bool) : WorkerRun :=
  { stdout := ⟨["npm warn", sampleLine], none⟩
    waitErr := some "exit status 1"
    stderrText := "rate limit exceeded"
    stderrReady := captured }

/-- A freshly created model after `benchmarkStartMsg`: running, start time set,
no sample completed. -/
def startedModel : BenchmarkModel :=
  { NewBenchmarkModel {} with running := true, startTime := some 1000 }

/-- A configuration with two secrets, parallel mode on. -/
def sampleConfig (openaiKey anthropicKey : String) : BenchmarkConfig :=
  { Provider := "openai"
    Model := "gpt-4o"
    APIKeys := [("OPENAI_API_KEY", openaiKey), ("ANTHROPIC_API_KEY", anthropicKey)]
    Parallel := true
    Samples := 10 }

/-- The bytes of the key `sk-proj-ABCDEFGH` (16 bytes). -/
def sampleKey : GoString := "sk-proj-ABCDEFGH".toUTF8.data.toList

/-- The bytes of the key `sk-12` (5 bytes). -/
def shortKey : GoString := "sk-12".toUTF8.data.toList

/-- Two tests run interleaved: `counter` is started, reports samples 1, 2 and 5
and completes; `each` reports samples 3 and 4 without a `TestStart`. -/
def interleavedEvents : List BenchmarkEvent :=
  [evTestStart "counter", evSampleProgress "counter" 1 10, evSampleProgress "each" 3 10,
   evSampleProgress "counter" 2 10, evSampleProgress "each" 4 10,
   evSampleProgress "counter" 5 10, evTestComplete "counter" true 1]

/-- A complete run with events of every kind: `counter` is started, reports
samples 1, 2 and 5 and completes; `each` reports samples 3 and 4; a `RateLimit`
and an `Error` event arrive in between; the test `ghost`, which is not one of
the known tests, is started and reports sample 1; `Complete` ends the run. -/
def mixedRun : List BenchmarkEvent :=
  [evTestStart "counter", evSampleProgress "counter" 1 10, evRateLimit 30,
   evSampleProgress "each" 3 10, evTestStart "ghost", evSampleProgress "ghost" 1 10,
   evSampleProgress "counter" 2 10, evError "boom", evSampleProgress "each" 4 10,
   evSampleProgress "counter" 5 10, evTestComplete "counter" true 1, evComplete]

/-- The worker runs a test that is not one of the known tests: `ghost` is started
and reports sample 1. -/
def ghostRun : List BenchmarkEvent :=
  [evTestStart "ghost", evSampleProgress "ghost" 1 10]

/-- One event more than the queue holds: `SampleProgress` events for `counter`
with the indices 1 to 101. -/
def oneTooMany : List BenchmarkEvent :=
  (List.range 101).map (fun i => evSampleProgress "counter" (i + 1) 101)

/-- A channel holding `eventChanCap` events. -/
def fullChan : Chan := ⟨List.replicate 100 (evSampleProgress "counter" 1 10), false⟩

/-- The current count recorded for test `k`. -/
def currentOf (m : BenchmarkModel) (k : String) : Option Int :=
  (m.tests.get k).map (fun t => t.Current)

/-- The pass-at-1 figure recorded for test `k`. -/
def passAtOneOf (m : BenchmarkModel) (k : String) : Option ℚ :=
  (m.tests.get k).map (fun t => t.PassAtOne)

/-- The retry-after hint recorded for test `k`. -/
def retryAfterOf (m : BenchmarkModel) (k : String) : Option Int :=
  (m.tests.get k).map (fun t => t.RetryAfter)

/-- The status recorded for test `k`. -/
def statusOf (m : BenchmarkModel) (k : String) : Option TestStatus :=
  (m.tests.get k).map (fun t => t.Status)

/-! ## Lemmas on the test map -/

theorem TestMap.modify_cons (a : String) (t : TestResult) (rest : TestMap) (k : String)
    (f : TestResult → TestResult) :
    TestMap.modify ((a, t) :: rest) k f =
      (a, if a = k then f t else t) :: TestMap.modify rest k f := by
  by_cases h : a = k <;> simp [TestMap.modify, h]

theorem TestMap.get_modify (ts : TestMap) (k k' : String) (f : TestResult → TestResult) :
    (TestMap.modify ts k f).get k' = if k' = k then (ts.get k').map f else ts.get k' := by
  induction ts with
  | nil => simp [TestMap.modify, TestMap.get]
  | cons p rest ih =>
    obtain ⟨a, t⟩ := p
    rw [TestMap.modify_cons]
    simp only [TestMap.get, ih]
    by_cases hak : a = k' <;> by_cases hk : k' = k <;> by_cases hak2 : a = k <;>
      simp_all

theorem TestMap.get_modify_self (ts : TestMap) (k : String) (f : TestResult → TestResult) :
    (TestMap.modify ts k f).get k = (ts.get k).map f := by
  rw [TestMap.get_modify]; simp

theorem TestMap.get_forEach (ts : TestMap) (k : String) (f : TestResult → TestResult) :
    (TestMap.forEach ts f).get k = (ts.get k).map f := by
  induction ts with
  | nil => simp [TestMap.forEach, TestMap.get]
  | cons p rest ih =>
    obtain ⟨a, t⟩ := p
    simp only [TestMap.forEach, List.map_cons, TestMap.get] at ih ⊢
    by_cases hak : a = k
    · simp [hak]
    · simp only [hak, if_false]; exact ih

/-! ## Lemmas on `handleEvent` -/

theorem handleEvent_sampleProgress (m : BenchmarkModel) (ev : BenchmarkEvent) (t : TestResult)
    (hty : ev.Typ = EventSampleProgress) (hget : m.tests.get ev.Test = some t) :
    handleEvent m ev =
      { m with
        currentCount := if ev.Sample > t.Current then m.currentCount + 1 else m.currentCount,
        tests := m.tests.modify ev.Test (fun test => { test with Current := ev.Sample }) } := by
  have h1 : ¬ EventSampleProgress = EventTestStart := by decide
  simp [handleEvent, hty, hget, h1]

theorem handleEvent_rateLimit (m : BenchmarkModel) (ev : BenchmarkEvent)
    (hty : ev.Typ = EventRateLimit) :
    handleEvent m ev =
      { m with
        tests := m.tests.forEach (fun test =>
          if test.Status = StatusRunning then
            { test with Status := StatusRateLimit, RetryAfter := ev.RetryAfter }
          else test) } := by
  have h1 : ¬ EventRateLimit = EventTestStart := by decide
  have h2 : ¬ EventRateLimit = EventSampleProgress := by decide
  have h3 : ¬ EventRateLimit = EventTestComplete := by decide
  simp [handleEvent, hty, h1, h2, h3]

theorem handleEvent_testComplete (m : BenchmarkModel) (ev : BenchmarkEvent) (t : TestResult)
    (hty : ev.Typ = EventTestComplete) (hget : m.tests.get ev.Test = some t) :
    handleEvent m ev =
      { m with
        tests := m.tests.modify ev.Test (fun test =>
          { test with
            Current := ev.Total,
            Passed := ev.Passed,
            PassAtOne := ev.PassAtOne,
            PassAtTen := ev.PassAtTen,
            Status := if ev.Passed then StatusCompleted else StatusFailed }) } := by
  have h1 : ¬ EventTestComplete = EventTestStart := by decide
  have h2 : ¬ EventTestComplete = EventSampleProgress := by decide
  simp [handleEvent, hty, hget, h1, h2]

theorem handleEvent_error (m : BenchmarkModel) (ev : BenchmarkEvent)
    (hty : ev.Typ = EventError) :
    handleEvent m ev =
      { m with running := false, state := { m.state with Error := ev.Error } } := by
  have h1 : ¬ EventError = EventTestStart := by decide
  have h2 : ¬ EventError = EventSampleProgress := by decide
  have h3 : ¬ EventError = EventTestComplete := by decide
  have h4 : ¬ EventError = EventRateLimit := by decide
  simp [handleEvent, hty, h1, h2, h3, h4]

/-- One `handleEvent` step changes the global counter by 0 or by +1. -/
theorem handleEvent_count_step (m : BenchmarkModel) (ev : BenchmarkEvent) :
    (handleEvent m ev).currentCount = m.currentCount ∨
      (handleEvent m ev).currentCount = m.currentCount + 1 := by
  unfold handleEvent
  split_ifs <;> (try split) <;> (try split_ifs) <;> simp

/-- The global counter never decreases along any event sequence. -/
theorem handleEvents_count_mono (events : List BenchmarkEvent) (m : BenchmarkModel) :
    m.currentCount ≤ (handleEvents m events).currentCount := by
  induction events generalizing m with
  | nil => simp [handleEvents]
  | cons ev rest ih =>
    have hstep := handleEvent_count_step m ev
    have hrest := ih (handleEvent m ev)
    simp only [handleEvents, List.foldl_cons] at hrest ⊢
    rcases hstep with h | h <;> omega

/-- What `handleEvent` does to the test map and the global counter depends on
nothing but the test map and the global counter. -/
theorem handleEvent_tests_count_congr (m₁ m₂ : BenchmarkModel) (ev : BenchmarkEvent)
    (ht : m₁.tests = m₂.tests) (hc : m₁.currentCount = m₂.currentCount) :
    (handleEvent m₁ ev).tests = (handleEvent m₂ ev).tests ∧
      (handleEvent m₁ ev).currentCount = (handleEvent m₂ ev).currentCount := by
  unfold handleEvent
  rw [ht]
  split_ifs <;> (try split) <;> (try split_ifs) <;> simp [ht, hc]

theorem handleEvents_tests_count_congr (events : List BenchmarkEvent) (m₁ m₂ : BenchmarkModel)
    (ht : m₁.tests = m₂.tests) (hc : m₁.currentCount = m₂.currentCount) :
    (handleEvents m₁ events).tests = (handleEvents m₂ events).tests ∧
      (handleEvents m₁ events).currentCount = (handleEvents m₂ events).currentCount := by
  induction events generalizing m₁ m₂ with
  | nil => exact ⟨ht, hc⟩
  | cons ev rest ih =>
    obtain ⟨h1, h2⟩ := handleEvent_tests_count_congr m₁ m₂ ev ht hc
    exact ih (handleEvent m₁ ev) (handleEvent m₂ ev) h1 h2

/-- The entry found under `k` after a `RateLimit` event. -/
theorem get_after_rateLimit (m : BenchmarkModel) (ev : BenchmarkEvent) (k : String)
    (t : TestResult) (hty : ev.Typ = EventRateLimit) (hget : m.tests.get k = some t) :
    (t.Status = StatusRunning →
        (handleEvent m ev).tests.get k =
          some { t with Status := StatusRateLimit, RetryAfter := ev.RetryAfter }) ∧
      (t.Status ≠ StatusRunning → (handleEvent m ev).tests.get k = some t) := by
  rw [handleEvent_rateLimit m ev hty]
  simp only [TestMap.get_forEach, hget, Option.map_some']
  constructor
  · intro h; simp [h]
  · intro h; simp [h]

/-- No event changes the `Completed` flag of the shared state. -/
theorem handleEvent_completed (m : BenchmarkModel) (ev : BenchmarkEvent) :
    (handleEvent m ev).state.Completed = m.state.Completed := by
  unfold handleEvent
  split_ifs <;> (try split) <;> simp

/-- Only an `Error` event changes the recorded error text. -/
theorem handleEvent_error_kept (m : BenchmarkModel) (ev : BenchmarkEvent)
    (hty : ev.Typ ≠ EventError) : (handleEvent m ev).state.Error = m.state.Error := by
  unfold handleEvent
  split_ifs <;> (try split) <;> simp

theorem handleEvents_completed (events : List BenchmarkEvent) (m : BenchmarkModel) :
    (handleEvents m events).state.Completed = m.state.Completed := by
  induction events generalizing m with
  | nil => rfl
  | cons ev rest ih =>
    have h := ih (handleEvent m ev)
    simp only [handleEvents, List.foldl_cons] at h ⊢
    rw [h, handleEvent_completed]

theorem handleEvents_error_kept (events : List BenchmarkEvent) (m : BenchmarkModel)
    (hno : ∀ e ∈ events, e.Typ ≠ EventError) :
    (handleEvents m events).state.Error = m.state.Error := by
  induction events generalizing m with
  | nil => rfl
  | cons ev rest ih =>
    have h := ih (handleEvent m ev) (fun e he => hno e (List.mem_cons_of_mem _ he))
    simp only [handleEvents, List.foldl_cons] at h ⊢
    rw [h, handleEvent_error_kept m ev (hno ev (List.mem_cons_self _ _))]

/-! ## Lemmas on the presentation loop -/

/-- With enough fuel the loop on an open channel handles every buffered event
and then waits. -/
theorem eventLoop_open (events : List BenchmarkEvent) (fuel : Nat) (m : BenchmarkModel)
    (hfuel : events.length < fuel) :
    eventLoop fuel m ⟨events, false⟩ = .benchmark (handleEvents m events) := by
  induction events generalizing fuel m with
  | nil =>
    cases fuel with
    | zero => simp at hfuel
    | succ n => simp [eventLoop, waitForEvent, handleEvents]
  | cons ev rest ih =>
    cases fuel with
    | zero => simp at hfuel
    | succ n =>
      have hn : rest.length < n := by simpa using hfuel
      simp [eventLoop, waitForEvent, Update, handleEvents, List.foldl_cons]
      simpa [handleEvents] using ih n (handleEvent m ev) hn

/-- With enough fuel the loop on a closed channel handles every buffered event
and then, on the closed sentinel, hands over to the results screen with the run
marked completed. -/
theorem eventLoop_closed (events : List BenchmarkEvent) (fuel : Nat) (m : BenchmarkModel)
    (hfuel : events.length < fuel) :
    eventLoop fuel m ⟨events, true⟩ =
      .results (NewResultsModel { (handleEvents m events).state with Completed := true }) := by
  induction events generalizing fuel m with
  | nil =>
    cases fuel with
    | zero => simp at hfuel
    | succ n => simp [eventLoop, waitForEvent, handleEvents, Update]
  | cons ev rest ih =>
    cases fuel with
    | zero => simp at hfuel
    | succ n =>
      have hn : rest.length < n := by simpa using hfuel
      simp [eventLoop, waitForEvent, Update, handleEvents, List.foldl_cons]
      simpa [handleEvents] using ih n (handleEvent m ev) hn

theorem presentationLoop_open (m : BenchmarkModel) (events : List BenchmarkEvent) :
    presentationLoop m ⟨events, false⟩ = .benchmark (handleEvents m events) :=
  eventLoop_open events (events.length + 1) m (Nat.lt_succ_self _)

theorem presentationLoop_closed (m : BenchmarkModel) (events : List BenchmarkEvent) :
    presentationLoop m ⟨events, true⟩ =
      .results (NewResultsModel { (handleEvents m events).state with Completed := true }) :=
  eventLoop_closed events (events.length + 1) m (Nat.lt_succ_self _)

/-! ## Lemmas on the decoder loop -/

theorem scanLoop_eq_foldl {σ : Type} (unmarshal : String → Option BenchmarkEvent)
    (handler : σ → BenchmarkEvent → σ) (lines : List String) (s : σ) :
    scanLoop unmarshal handler lines s = (lines.filterMap unmarshal).foldl handler s := by
  induction lines generalizing s with
  | nil => rfl
  | cons line rest ih =>
    cases h : unmarshal line with
    | none => simp [scanLoop, h, ih, List.filterMap_cons]
    | some event => simp [scanLoop, h, ih, List.filterMap_cons]

theorem foldl_recordCall (events calls : List BenchmarkEvent) :
    events.foldl recordCall calls = calls ++ events := by
  induction events generalizing calls with
  | nil => simp
  | cons e rest ih => simp [List.foldl_cons, ih, recordCall]

/-- When every line of the stream is shorter than `MaxScanTokenSize` bytes, the
scanner delivers every line and reports the read error of the stream. -/
theorem scanLines_short (readErr : Option String) (lines : List String)
    (hshort : ∀ line ∈ lines, line.utf8ByteSize < MaxScanTokenSize) :
    scanLines readErr lines = ⟨lines.map dropCR, readErr⟩ := by
  induction lines with
  | nil => rfl
  | cons line rest ih =>
    have h1 := hshort line (List.mem_cons_self _ _)
    have h2 := ih (fun l hl => hshort l (List.mem_cons_of_mem _ hl))
    simp [scanLines, h1, h2]

/-- At the first line of `MaxScanTokenSize` bytes or more the scanner stops with
`ErrTooLong`: the lines before it are delivered, the lines after it are not. -/
theorem scanLines_long (readErr : Option String) (before after : List String) (long : String)
    (hshort : ∀ line ∈ before, line.utf8ByteSize < MaxScanTokenSize)
    (hlong : MaxScanTokenSize ≤ long.utf8ByteSize) :
    scanLines readErr (before ++ long :: after) = ⟨before.map dropCR, some ErrTooLong⟩ := by
  induction before with
  | nil => simp [scanLines, Nat.not_lt.mpr hlong]
  | cons line rest ih =>
    have h1 := hshort line (List.mem_cons_self _ _)
    have h2 := ih (fun l hl => hshort l (List.mem_cons_of_mem _ hl))
    simp [scanLines, h1, h2]

/-- On a stream whose lines are all shorter than `MaxScanTokenSize` bytes,
`ParseEventStream` calls the handler once per line that decodes, in stream
order, and returns the read error of the stream, wrapped, or none. -/
theorem ParseEventStream_short_lines {σ : Type} (unmarshal : String → Option BenchmarkEvent)
    (stream : OutputStream) (handler : σ → BenchmarkEvent → σ) (s : σ)
    (hshort : ∀ line ∈ stream.lines, line.utf8ByteSize < MaxScanTokenSize) :
    ParseEventStream unmarshal (NewScanner stream) handler s =
      (((stream.lines.map dropCR).filterMap unmarshal).foldl handler s,
        stream.readErr.map (fun err => "error reading stream: " ++ err)) := by
  unfold NewScanner
  rw [scanLines_short _ _ hshort]
  unfold ParseEventStream
  cases stream.readErr <;> simp [scanLoop_eq_foldl]

/-- On a stream with a line of `MaxScanTokenSize` bytes or more, `ParseEventStream`
calls the handler for the lines before the first such line only and returns
`ErrTooLong`, wrapped, whatever the read error of the stream. -/
theorem ParseEventStream_long_line {σ : Type} (unmarshal : String → Option BenchmarkEvent)
    (before after : List String) (long : String) (readErr : Option String)
    (handler : σ → BenchmarkEvent → σ) (s : σ)
    (hshort : ∀ line ∈ before, line.utf8ByteSize < MaxScanTokenSize)
    (hlong : MaxScanTokenSize ≤ long.utf8ByteSize) :
    ParseEventStream unmarshal (NewScanner ⟨before ++ long :: after, readErr⟩) handler s =
      (((before.map dropCR).filterMap unmarshal).foldl handler s,
        some ("error reading stream: " ++ ErrTooLong)) := by
  unfold NewScanner
  rw [scanLines_long _ _ _ _ hshort hlong]
  simp [ParseEventStream, scanLoop_eq_foldl]

/-- The byte length of a run of the letter `x`. -/
theorem utf8ByteSize_go_replicate (n : Nat) :
    String.utf8ByteSize.go (List.replicate n 'x') = n := by
  induction n with
  | zero => rfl
  | succ k ih =>
    rw [List.replicate_succ, String.utf8ByteSize.go, ih]
    rfl

/-- The long line of the scenarios has 70000 bytes. -/
theorem longLine_size : longLine.utf8ByteSize = 70000 := by
  unfold longLine
  exact utf8ByteSize_go_replicate 70000

/-- The long line of the scenarios is none of the lines that decode. -/
theorem scenarioUnmarshal_longLine : scenarioUnmarshal longLine = none := by
  have hlen : longLine.length = 70000 := by
    show (List.replicate 70000 'x').length = 70000
    exact List.length_replicate 70000 'x'
  have h1 : longLine ≠ errorLine := by
    intro h
    have h2 : errorLine.length = 70000 := by rw [← h]; exact hlen
    revert h2
    decide
  have h3 : longLine ≠ sampleLine := by
    intro h
    have h2 : sampleLine.length = 70000 := by rw [← h]; exact hlen
    revert h2
    decide
  simp [scenarioUnmarshal, h1, h3]

/-! ## More lemmas on `handleEvent` -/

theorem handleEvent_testStart (m : BenchmarkModel) (ev : BenchmarkEvent) (t : TestResult)
    (hty : ev.Typ = EventTestStart) (hget : m.tests.get ev.Test = some t) :
    handleEvent m ev =
      { m with
        tests := m.tests.modify ev.Test
          (fun test => { test with Status := StatusRunning, Current := 0 }) } := by
  simp [handleEvent, hty, hget]

theorem handleEvent_complete (m : BenchmarkModel) (ev : BenchmarkEvent)
    (hty : ev.Typ = EventComplete) :
    handleEvent m ev = { m with state := { m.state with Results := m.tests.map Prod.snd } } := by
  have h1 : ¬ EventComplete = EventTestStart := by decide
  have h2 : ¬ EventComplete = EventSampleProgress := by decide
  have h3 : ¬ EventComplete = EventTestComplete := by decide
  have h4 : ¬ EventComplete = EventRateLimit := by decide
  have h5 : ¬ EventComplete = EventError := by decide
  simp [handleEvent, hty, h1, h2, h3, h4, h5]

/-- A write through the pointer under `k` that keeps `TestName` keeps the list
of names. -/
theorem TestMap.modify_names (ts : TestMap) (k : String) (f : TestResult → TestResult)
    (hf : ∀ t, (f t).TestName = t.TestName) :
    (TestMap.modify ts k f).map (fun p => p.2.TestName) = ts.map (fun p => p.2.TestName) := by
  induction ts with
  | nil => rfl
  | cons p rest ih =>
    obtain ⟨a, t⟩ := p
    rw [TestMap.modify_cons]
    simp only [List.map_cons, ih]
    by_cases h : a = k <;> simp [h, hf]

theorem TestMap.forEach_names (ts : TestMap) (f : TestResult → TestResult)
    (hf : ∀ t, (f t).TestName = t.TestName) :
    (TestMap.forEach ts f).map (fun p => p.2.TestName) = ts.map (fun p => p.2.TestName) := by
  simp [TestMap.forEach, List.map_map, Function.comp, hf]

/-- No event changes the `TestName` stored in any entry. -/
theorem handleEvent_names (m : BenchmarkModel) (ev : BenchmarkEvent) :
    (handleEvent m ev).tests.map (fun p => p.2.TestName) =
      m.tests.map (fun p => p.2.TestName) := by
  unfold handleEvent
  split_ifs <;> (try split) <;> dsimp only <;>
    first
      | rfl
      | exact TestMap.modify_names _ _ _ (fun _ => rfl)
      | (apply TestMap.forEach_names; intro t; split_ifs <;> rfl)

theorem handleEvents_names (events : List BenchmarkEvent) (m : BenchmarkModel) :
    (handleEvents m events).tests.map (fun p => p.2.TestName) =
      m.tests.map (fun p => p.2.TestName) := by
  induction events generalizing m with
  | nil => rfl
  | cons ev rest ih =>
    have h := ih (handleEvent m ev)
    simp only [handleEvents, List.foldl_cons] at h ⊢
    rw [h, handleEvent_names]

theorem TestMap.mem_values_of_get (ts : TestMap) (k : String) (t : TestResult)
    (h : ts.get k = some t) : t ∈ ts.map Prod.snd := by
  induction ts with
  | nil => simp [TestMap.get] at h
  | cons p rest ih =>
    obtain ⟨a, u⟩ := p
    simp only [TestMap.get] at h
    by_cases hak : a = k
    · simp only [hak, if_true, Option.some.injEq] at h
      simp [h]
    · simp only [hak, if_false] at h
      simp [ih h]

/-! ## Lemmas on the bounded channel -/

theorem Chan.offer_of_room (ch : Chan) (event : BenchmarkEvent)
    (h : ch.buf.length < eventChanCap) :
    ch.offer event = { ch with buf := ch.buf ++ [event] } := by
  simp [Chan.offer, h]

theorem Chan.offer_of_full (ch : Chan) (event : BenchmarkEvent)
    (h : ¬ ch.buf.length < eventChanCap) : ch.offer event = ch := by
  simp [Chan.offer, h]

theorem Chan.offer_closed (ch : Chan) (event : BenchmarkEvent) :
    (ch.offer event).closed = ch.closed := by
  unfold Chan.offer; split_ifs <;> rfl

theorem Chan.offer_length_le (ch : Chan) (event : BenchmarkEvent)
    (h : ch.buf.length ≤ eventChanCap) : (ch.offer event).buf.length ≤ eventChanCap := by
  unfold Chan.offer
  split_ifs with hroom
  · simp only [List.length_append, List.length_singleton]; omega
  · exact h

theorem waitForEvent_length_le (ch ch' : Chan) (msg : Msg)
    (h : waitForEvent ch = some (msg, ch')) : ch'.buf.length ≤ ch.buf.length := by
  unfold waitForEvent at h
  split at h
  · next event rest hbuf =>
    simp only [Option.some.injEq, Prod.mk.injEq] at h
    rw [← h.2, hbuf]; simp
  · split_ifs at h
    simp only [Option.some.injEq, Prod.mk.injEq] at h
    rw [← h.2]

theorem Bridge.step_length_le (b : Bridge) (t : Turn)
    (h : b.chan.buf.length ≤ eventChanCap) : (b.step t).chan.buf.length ≤ eventChanCap := by
  cases t with
  | producer =>
    cases hp : b.pending with
    | nil =>
      have hstep : b.step .producer = { b with chan := b.chan.close } := by
        simp [Bridge.step, hp]
      rw [hstep]; exact h
    | cons event rest =>
      have hstep : b.step .producer =
          { b with chan := b.chan.offer event, pending := rest } := by
        simp [Bridge.step, hp]
      rw [hstep]; exact Chan.offer_length_le _ _ h
  | consumer =>
    by_cases hdone : Msg.benchmarkCompleteMsg ∈ b.received
    · have hstep : b.step .consumer = b := by simp [Bridge.step, hdone]
      rw [hstep]; exact h
    · cases hw : waitForEvent b.chan with
      | none =>
        have hstep : b.step .consumer = b := by simp [Bridge.step, hdone, hw]
        rw [hstep]; exact h
      | some p =>
        obtain ⟨msg, ch⟩ := p
        have hstep : b.step .consumer =
            { b with chan := ch, received := b.received ++ [msg] } := by
          simp [Bridge.step, hdone, hw]
        rw [hstep]
        exact le_trans (waitForEvent_length_le _ _ _ hw) h

theorem Bridge.run_length_le (turns : List Turn) (b : Bridge)
    (h : b.chan.buf.length ≤ eventChanCap) : (b.run turns).chan.buf.length ≤ eventChanCap := by
  induction turns generalizing b with
  | nil => exact h
  | cons t rest ih => exact ih (b.step t) (Bridge.step_length_le b t h)

theorem Bridge.receivedEvents_snoc (b : Bridge) (ch : Chan) (msg : Msg) :
    Bridge.receivedEvents { b with chan := ch, received := b.received ++ [msg] } =
      b.receivedEvents ++ (msg.eventOf).toList := by
  cases h : msg.eventOf <;> simp [Bridge.receivedEvents, List.filterMap_append, h]

theorem Bridge.Inv_start (events : List BenchmarkEvent) :
    Bridge.Inv events (Bridge.start events) where
  sub := by simp [Bridge.start, Bridge.receivedEvents, Chan.empty]
  closedDone := by simp [Bridge.start, Chan.empty]
  sentinel := by simp [Bridge.start]
  shape := by simp [Bridge.start, Bridge.receivedEvents]

theorem Bridge.Inv_step (events : List BenchmarkEvent) (b : Bridge) (t : Turn)
    (inv : Bridge.Inv events b) : Bridge.Inv events (b.step t) := by
  obtain ⟨hsub, hcd, hsen, hshape⟩ := inv
  cases t with
  | producer =>
    cases hp : b.pending with
    | nil =>
      have hstep : b.step .producer = { b with chan := b.chan.close } := by
        simp [Bridge.step, hp]
      rw [hstep]
      refine ⟨?_, ?_, ?_, ?_⟩
      · simpa [Bridge.receivedEvents, Chan.close] using hsub
      · intro _; exact hp
      · intro h; exact ⟨(hsen h).1, rfl⟩
      · simpa [Bridge.receivedEvents] using hshape
    | cons event rest =>
      have hstep : b.step .producer =
          { b with chan := b.chan.offer event, pending := rest } := by
        simp [Bridge.step, hp]
      have hopen : ¬ b.chan.closed = true := by
        intro hc; rw [hcd hc] at hp; cases hp
      rw [hstep]
      refine ⟨?_, ?_, ?_, ?_⟩
      · rw [hp] at hsub
        by_cases hroom : b.chan.buf.length < eventChanCap
        · rw [Chan.offer_of_room _ _ hroom]
          simpa [Bridge.receivedEvents, List.append_assoc] using hsub
        · rw [Chan.offer_of_full _ _ hroom]
          refine List.Sublist.trans ?_ hsub
          exact List.Sublist.append (List.Sublist.refl _) (List.sublist_cons_self event rest)
      · intro hc
        rw [Chan.offer_closed] at hc
        exact absurd hc hopen
      · intro h
        exact absurd (hsen h).2 hopen
      · simpa [Bridge.receivedEvents] using hshape
  | consumer =>
    by_cases hdone : Msg.benchmarkCompleteMsg ∈ b.received
    · have hstep : b.step .consumer = b := by simp [Bridge.step, hdone]
      rw [hstep]; exact ⟨hsub, hcd, hsen, hshape⟩
    · have hrecv : b.received = b.receivedEvents.map Msg.benchmarkEventMsg := by
        rcases hshape with h | h
        · exact h
        · exact absurd (by rw [h]; simp) hdone
      cases hbuf : b.chan.buf with
      | nil =>
        by_cases hc : b.chan.closed = true
        · have hstep : b.step .consumer =
              { b with chan := b.chan, received := b.received ++ [Msg.benchmarkCompleteMsg] } := by
            simp [Bridge.step, hdone, waitForEvent, hbuf, hc]
          rw [hstep]
          have hre := Bridge.receivedEvents_snoc b b.chan Msg.benchmarkCompleteMsg
          simp only [Msg.eventOf, Option.toList, List.append_nil] at hre
          refine ⟨?_, hcd, ?_, ?_⟩
          · rw [hre]; exact hsub
          · intro _; exact ⟨hbuf, hc⟩
          · right; rw [hre]; show b.received ++ _ = _; rw [← hrecv]
        · have hstep : b.step .consumer = b := by
            simp [Bridge.step, hdone, waitForEvent, hbuf, hc]
          rw [hstep]; exact ⟨hsub, hcd, hsen, hshape⟩
      | cons event rest =>
        have hstep : b.step .consumer =
            { b with chan := { b.chan with buf := rest },
                     received := b.received ++ [Msg.benchmarkEventMsg event] } := by
          simp [Bridge.step, hdone, waitForEvent, hbuf]
        rw [hstep]
        have hre := Bridge.receivedEvents_snoc b { b.chan with buf := rest }
          (Msg.benchmarkEventMsg event)
        simp only [Msg.eventOf, Option.toList] at hre
        refine ⟨?_, ?_, ?_, ?_⟩
        · rw [hre]
          rw [hbuf] at hsub
          simpa [List.append_assoc] using hsub
        · intro hc; exact hcd hc
        · intro h
          have h' : Msg.benchmarkCompleteMsg ∈ b.received ++ [Msg.benchmarkEventMsg event] := h
          simp only [List.mem_append, List.mem_singleton] at h'
          rcases h' with h' | h'
          · exact absurd h' hdone
          · cases h'
        · left
          rw [hre]
          show b.received ++ _ = _
          rw [hrecv, List.map_append]
          simp [hre]

theorem Bridge.Inv_run (events : List BenchmarkEvent) (turns : List Turn) (b : Bridge)
    (inv : Bridge.Inv events b) : Bridge.Inv events (b.run turns) := by
  induction turns generalizing b with
  | nil => exact inv
  | cons t rest ih => exact ih (b.step t) (Bridge.Inv_step events b t inv)

/-- One channel operation moves events between what is still to be offered, the
buffer and what has been received, and loses exactly the event discarded at
that turn. -/
theorem Bridge.account_step (b : Bridge) (t : Turn) :
    List.Perm
      ((b.step t).receivedEvents ++ (b.step t).chan.buf ++ (b.step t).pending ++ b.dropAt t)
      (b.receivedEvents ++ b.chan.buf ++ b.pending) := by
  cases t with
  | producer =>
    cases hp : b.pending with
    | nil =>
      have hstep : b.step .producer = { b with chan := b.chan.close } := by
        simp [Bridge.step, hp]
      rw [hstep]
      simp [Bridge.dropAt, hp, Bridge.receivedEvents, Chan.close]
    | cons event rest =>
      have hstep : b.step .producer =
          { b with chan := b.chan.offer event, pending := rest } := by
        simp [Bridge.step, hp]
      rw [hstep]
      by_cases hroom : b.chan.buf.length < eventChanCap
      · rw [Chan.offer_of_room _ _ hroom]
        simp [Bridge.dropAt, hp, hroom, Bridge.receivedEvents, List.append_assoc]
      · rw [Chan.offer_of_full _ _ hroom]
        simp only [Bridge.dropAt, hp, hroom, if_false, Bridge.receivedEvents]
        rw [List.append_assoc (List.filterMap Msg.eventOf b.received ++ b.chan.buf)]
        exact List.Perm.append_left _ (List.perm_append_singleton event rest)
  | consumer =>
    by_cases hdone : Msg.benchmarkCompleteMsg ∈ b.received
    · have hstep : b.step .consumer = b := by simp [Bridge.step, hdone]
      rw [hstep]; simp [Bridge.dropAt]
    · cases hbuf : b.chan.buf with
      | nil =>
        by_cases hc : b.chan.closed = true
        · have hstep : b.step .consumer =
              { b with chan := b.chan, received := b.received ++ [Msg.benchmarkCompleteMsg] } := by
            simp [Bridge.step, hdone, waitForEvent, hbuf, hc]
          rw [hstep]
          have hre := Bridge.receivedEvents_snoc b b.chan Msg.benchmarkCompleteMsg
          simp only [Msg.eventOf, Option.toList, List.append_nil] at hre
          rw [hre]
          simp [Bridge.dropAt, hbuf]
        · have hstep : b.step .consumer = b := by
            simp [Bridge.step, hdone, waitForEvent, hbuf, hc]
          rw [hstep]; simp [Bridge.dropAt, hbuf]
      | cons event rest =>
        have hstep : b.step .consumer =
            { b with chan := { b.chan with buf := rest },
                     received := b.received ++ [Msg.benchmarkEventMsg event] } := by
          simp [Bridge.step, hdone, waitForEvent, hbuf]
        rw [hstep]
        have hre := Bridge.receivedEvents_snoc b { b.chan with buf := rest }
          (Msg.benchmarkEventMsg event)
        simp only [Msg.eventOf, Option.toList] at hre
        rw [hre]
        simp [Bridge.dropAt, List.append_assoc]

/-- Along an interleaving every event is received, buffered, still to be offered,
or discarded, and none is counted twice. -/
theorem Bridge.account_run (turns : List Turn) (b : Bridge) :
    List.Perm
      ((b.run turns).receivedEvents ++ (b.run turns).chan.buf ++ (b.run turns).pending ++
        b.dropped turns)
      (b.receivedEvents ++ b.chan.buf ++ b.pending) := by
  induction turns generalizing b with
  | nil => simp [Bridge.run, Bridge.dropped]
  | cons t rest ih =>
    have h1 := ih (b.step t)
    have h2 := Bridge.account_step b t
    have hrun : b.run (t :: rest) = (b.step t).run rest := rfl
    rw [hrun]
    simp only [Bridge.dropped]
    refine List.Perm.trans ?_ h2
    refine List.Perm.trans ?_ (List.Perm.append_right (b.dropAt t) h1)
    rw [List.append_assoc _ ((b.step t).dropped rest) (b.dropAt t)]
    exact List.Perm.append_left _ List.perm_append_comm

/-- When the producer sets out to offer no more events than the queue holds,
nothing is discarded. -/
theorem Bridge.dropped_nil (events : List BenchmarkEvent) (turns : List Turn) (b : Bridge)
    (inv : Bridge.Inv events b) (hsmall : events.length ≤ eventChanCap) :
    b.dropped turns = [] := by
  induction turns generalizing b with
  | nil => rfl
  | cons t rest ih =>
    simp only [Bridge.dropped]
    rw [ih (b.step t) (Bridge.Inv_step events b t inv)]
    have hlen := inv.sub.length_le
    simp only [List.length_append] at hlen
    cases t with
    | consumer => simp [Bridge.dropAt]
    | producer =>
      cases hp : b.pending with
      | nil => simp [Bridge.dropAt, hp]
      | cons event tail =>
        rw [hp] at hlen
        have hroom : b.chan.buf.length < eventChanCap := by
          simp only [List.length_cons] at hlen
          omega
        simp [Bridge.dropAt, hp, hroom]

/-! ## Lemmas on `RunBenchmark` and the producer goroutine -/

/-- The handler of `RunBenchmark` is called on a sequence of events, and the
returned error, that do not depend on the handler. -/
theorem RunBenchmark_fold {σ : Type} (unmarshal : String → Option BenchmarkEvent)
    (run : WorkerRun) (handler : σ → BenchmarkEvent → σ) (s : σ) :
    RunBenchmark unmarshal run handler s =
      ((RunBenchmark unmarshal run recordCall []).1.foldl handler s,
        (RunBenchmark unmarshal run recordCall []).2) := by
  obtain ⟨e1, e2, e3, e4, ⟨lines, serr⟩, w, txt, rdy⟩ := run
  cases e1 <;> cases e2 <;> cases e3 <;> cases e4 <;> cases w <;> cases rdy <;> cases serr <;>
    simp [RunBenchmark, ParseEventStream, scanLoop_eq_foldl, foldl_recordCall]

/-- Once the worker has been started and `cmd.Wait` reports an error, the error
returned by `RunBenchmark` is made of the wait error and, when the captured
standard error text has arrived, of that text; the decoded events play no part. -/
theorem RunBenchmark_waitErr {σ : Type} (unmarshal : String → Option BenchmarkEvent)
    (stdout : Scanner) (waitErr stderrText : String) (stderrReady : Bool)
    (handler : σ → BenchmarkEvent → σ) (s : σ) :
    (RunBenchmark unmarshal
        { stdout := stdout, waitErr := some waitErr, stderrText := stderrText,
          stderrReady := stderrReady } handler s).2 =
      some (if stderrReady then "command failed: " ++ waitErr ++ "\nstderr: " ++ stderrText
            else "command failed: " ++ waitErr) := by
  cases stderrReady <;> simp [RunBenchmark]

theorem runBenchmark_eq (unmarshal : String → Option BenchmarkEvent) (run : WorkerRun)
    (ch : Chan) :
    runBenchmark unmarshal run ch = ((producerEvents unmarshal run).foldl Chan.offer ch).close := by
  unfold runBenchmark producerEvents
  rw [RunBenchmark_fold]
  generalize RunBenchmark unmarshal run recordCall [] = r
  obtain ⟨calls, err⟩ := r
  cases err <;> simp [List.foldl_append]

/-- When the `Error` event is the last event buffered in a closed channel, its text
is the error recorded once the presentation loop has handled the channel. -/
theorem presentationLoop_error_last (m : BenchmarkModel) (ch : Chan) (text : String)
    (hroom : ch.buf.length < eventChanCap) :
    (presentationLoop m (ch.offer { Typ := EventError, Error := text }).close).state.Error
      = text := by
  rw [Chan.offer_of_room _ _ hroom]
  have h : (Chan.close { ch with buf := ch.buf ++ [{ Typ := EventError, Error := text }] }) =
      ⟨ch.buf ++ [{ Typ := EventError, Error := text }], true⟩ := rfl
  rw [h, presentationLoop_closed]
  simp only [Model.state, NewResultsModel, handleEvents, List.foldl_append, List.foldl_cons,
    List.foldl_nil]
  rw [handleEvent_error _ _ rfl]

/-- When the queue is full the `Error` event is dropped: the closed channel holds
what it held before. -/
theorem offer_error_full (ch : Chan) (text : String) (hfull : ch.buf.length = eventChanCap) :
    (ch.offer { Typ := EventError, Error := text }).close = ch.close := by
  rw [Chan.offer_of_full _ _ (by omega)]

/-! ## Lemmas on the worker's environment and the debug log -/

/-- The loop over `config.APIKeys`: one environment entry and, when the log is
open, one masked log line per secret. -/
theorem setup_keys_loop (logOpen : Bool) (keys : List (String × String)) (s : Setup) :
    keys.foldl
        (fun s kv =>
          (s.appendEnv (kv.1 ++ "=" ++ kv.2)).logf logOpen ("ENV: " ++ kv.1 ++ "=***\n")) s =
      { env := s.env ++ keys.map (fun kv => kv.1 ++ "=" ++ kv.2),
        log := if logOpen then s.log ++ secretLogLines (keys.map Prod.fst) else s.log } := by
  induction keys generalizing s with
  | nil => cases logOpen <;> simp [secretLogLines]
  | cons kv rest ih =>
    rw [List.foldl_cons, ih]
    cases logOpen <;>
      simp [Setup.appendEnv, Setup.logf, secretLogLines, String.append_assoc]

/-! ## Frame lemmas on `handleEvent` -/

theorem TestMap.modify_keys (ts : TestMap) (k : String) (f : TestResult → TestResult) :
    (TestMap.modify ts k f).keys = ts.keys := by
  induction ts with
  | nil => rfl
  | cons p rest ih =>
    obtain ⟨a, t⟩ := p
    rw [TestMap.modify_cons]
    simp only [TestMap.keys, List.map_cons] at ih ⊢
    rw [ih]

theorem TestMap.forEach_keys (ts : TestMap) (f : TestResult → TestResult) :
    (TestMap.forEach ts f).keys = ts.keys := by
  simp [TestMap.forEach, TestMap.keys, List.map_map, Function.comp]

/-- No event adds or removes an entry of the test map. -/
theorem handleEvent_keys (m : BenchmarkModel) (ev : BenchmarkEvent) :
    (handleEvent m ev).tests.keys = m.tests.keys := by
  unfold handleEvent
  split_ifs <;> (try split) <;> dsimp only <;>
    first
      | rfl
      | exact TestMap.modify_keys _ _ _
      | exact TestMap.forEach_keys _ _

theorem handleEvents_keys (events : List BenchmarkEvent) (m : BenchmarkModel) :
    (handleEvents m events).tests.keys = m.tests.keys := by
  induction events generalizing m with
  | nil => rfl
  | cons ev rest ih =>
    have h := ih (handleEvent m ev)
    simp only [handleEvents, List.foldl_cons] at h ⊢
    rw [h, handleEvent_keys]

theorem TestMap.get_isSome_iff (ts : TestMap) (k : String) :
    (ts.get k).isSome = true ↔ k ∈ ts.keys := by
  induction ts with
  | nil => simp [TestMap.get, TestMap.keys]
  | cons p rest ih =>
    obtain ⟨a, t⟩ := p
    simp only [TestMap.get, TestMap.keys, List.map_cons, List.mem_cons] at ih ⊢
    by_cases hak : a = k
    · simp [hak]
    · simp only [hak, if_false, ih]
      constructor
      · intro h; exact Or.inr h
      · intro h
        rcases h with h | h
        · exact absurd h.symm hak
        · exact h

/-- The entry `NewBenchmarkModel` creates for a listed name. -/
theorem get_initial (names : List String) (name : String) (h : name ∈ names) :
    TestMap.get (names.map (fun n =>
        (n, ({ TestName := n, Total := 10, Current := 0, Status := StatusQueued } : TestResult))))
      name = some { TestName := name, Total := 10, Current := 0, Status := StatusQueued } := by
  induction names with
  | nil => simp at h
  | cons a rest ih =>
    simp only [List.map_cons, TestMap.get]
    by_cases hak : a = name
    · simp [hak]
    · simp only [hak, if_false]
      rcases List.mem_cons.mp h with h | h
      · exact absurd h.symm hak
      · exact ih h

/-- An event whose type is none of the six known kinds changes nothing. -/
theorem handleEvent_unknown (m : BenchmarkModel) (ev : BenchmarkEvent)
    (h1 : ev.Typ ≠ EventTestStart) (h2 : ev.Typ ≠ EventSampleProgress)
    (h3 : ev.Typ ≠ EventTestComplete) (h4 : ev.Typ ≠ EventRateLimit)
    (h5 : ev.Typ ≠ EventError) (h6 : ev.Typ ≠ EventComplete) : handleEvent m ev = m := by
  simp [handleEvent, h1, h2, h3, h4, h5, h6]

/-- A per-test event naming a test that is not tracked changes nothing. -/
theorem handleEvent_untracked (m : BenchmarkModel) (ev : BenchmarkEvent)
    (hty : ev.Typ = EventTestStart ∨ ev.Typ = EventSampleProgress ∨ ev.Typ = EventTestComplete)
    (hget : m.tests.get ev.Test = none) : handleEvent m ev = m := by
  have h1 : ¬ EventSampleProgress = EventTestStart := by decide
  have h2 : ¬ EventTestComplete = EventTestStart := by decide
  have h3 : ¬ EventTestComplete = EventSampleProgress := by decide
  rcases hty with h | h | h <;> simp [handleEvent, h, hget, h1, h2, h3]

/-- A per-test event leaves the entries under every other name as they are. -/
theorem handleEvent_other_test (m : BenchmarkModel) (ev : BenchmarkEvent) (k : String)
    (hty : ev.Typ = EventTestStart ∨ ev.Typ = EventSampleProgress ∨ ev.Typ = EventTestComplete)
    (hk : k ≠ ev.Test) : (handleEvent m ev).tests.get k = m.tests.get k := by
  have h1 : ¬ EventSampleProgress = EventTestStart := by decide
  have h2 : ¬ EventTestComplete = EventTestStart := by decide
  have h3 : ¬ EventTestComplete = EventSampleProgress := by decide
  cases hget : m.tests.get ev.Test with
  | none => rw [handleEvent_untracked m ev hty hget]
  | some t =>
    rcases hty with h | h | h
    · rw [handleEvent_testStart m ev t h hget]
      simp [TestMap.get_modify, hk]
    · rw [handleEvent_sampleProgress m ev t h hget]
      simp [TestMap.get_modify, hk]
    · rw [handleEvent_testComplete m ev t h hget]
      simp [TestMap.get_modify, hk]

/-- Only a `SampleProgress` event changes the global counter. -/
theorem handleEvent_count_kept (m : BenchmarkModel) (ev : BenchmarkEvent)
    (hty : ev.Typ ≠ EventSampleProgress) :
    (handleEvent m ev).currentCount = m.currentCount := by
  unfold handleEvent
  split_ifs <;> (try split) <;> simp

/-- Only a `Complete` event changes `Results`. -/
theorem handleEvent_results_kept (m : BenchmarkModel) (ev : BenchmarkEvent)
    (hty : ev.Typ ≠ EventComplete) : (handleEvent m ev).state.Results = m.state.Results := by
  unfold handleEvent
  split_ifs <;> (try split) <;> simp

theorem handleEvents_results_kept (events : List BenchmarkEvent) (m : BenchmarkModel)
    (hno : ∀ e ∈ events, e.Typ ≠ EventComplete) :
    (handleEvents m events).state.Results = m.state.Results := by
  induction events generalizing m with
  | nil => rfl
  | cons ev rest ih =>
    have h := ih (handleEvent m ev) (fun e he => hno e (List.mem_cons_of_mem _ he))
    simp only [handleEvents, List.foldl_cons] at h ⊢
    rw [h, handleEvent_results_kept m ev (hno ev (List.mem_cons_self _ _))]

/-! ## Lemmas on `MaskAPIKey` and `FormatDuration` -/

theorem stringsRepeat_length (s : GoString) (count : Nat) :
    (stringsRepeat s count).length = count * s.length := by
  induction count with
  | zero => simp [stringsRepeat]
  | succ n ih =>
    simp only [stringsRepeat, List.replicate_succ, List.flatten_cons, List.length_append] at ih ⊢
    rw [ih]; ring

/-- Every byte of a run of bullets is a byte of the bullet. -/
theorem stringsRepeat_mem (s : GoString) (count : Nat) (b : UInt8)
    (h : b ∈ stringsRepeat s count) : b ∈ s := by
  induction count with
  | zero => simp [stringsRepeat] at h
  | succ n ih =>
    simp only [stringsRepeat, List.replicate_succ, List.flatten_cons, List.mem_append] at ih h
    rcases h with h | h
    · exact h
    · exact ih h

/-! ## Lemmas on a rate-limited test -/

/-- A `SampleProgress` or `RateLimit` event leaves a rate-limited test
rate-limited and changes at most its current count. -/
theorem rateLimited_step (m : BenchmarkModel) (ev : BenchmarkEvent) (t : String)
    (tr : TestResult) (hty : ev.Typ = EventSampleProgress ∨ ev.Typ = EventRateLimit)
    (hget : m.tests.get t = some tr) (hst : tr.Status = StatusRateLimit) :
    ∃ c, (handleEvent m ev).tests.get t = some { tr with Current := c } := by
  rcases hty with h | h
  · by_cases hk : t = ev.Test
    · subst hk
      rw [handleEvent_sampleProgress m ev tr h hget]
      exact ⟨ev.Sample, by simp [TestMap.get_modify_self, hget]⟩
    · rw [handleEvent_other_test m ev t (Or.inr (Or.inl h)) hk]
      exact ⟨tr.Current, hget⟩
  · have hne : tr.Status ≠ StatusRunning := by rw [hst]; decide
    rw [(get_after_rateLimit m ev t tr h hget).2 hne]
    exact ⟨tr.Current, rfl⟩

theorem rateLimited_steps (events : List BenchmarkEvent) (m : BenchmarkModel) (t : String)
    (tr : TestResult)
    (hty : ∀ e ∈ events, e.Typ = EventSampleProgress ∨ e.Typ = EventRateLimit)
    (hget : m.tests.get t = some tr) (hst : tr.Status = StatusRateLimit) :
    ∃ c, (handleEvents m events).tests.get t = some { tr with Current := c } := by
  induction events generalizing m tr with
  | nil => exact ⟨tr.Current, hget⟩
  | cons ev rest ih =>
    obtain ⟨c, hc⟩ := rateLimited_step m ev t tr (hty ev (List.mem_cons_self _ _)) hget hst
    obtain ⟨c', hc'⟩ := ih (handleEvent m ev) { tr with Current := c }
      (fun e he => hty e (List.mem_cons_of_mem _ he)) hc hst
    exact ⟨c', hc'⟩

/-- An event that is not a `TestStart` or `TestComplete` naming the test leaves
the status of the test as it is, when that status is not Running. -/
theorem status_kept (m : BenchmarkModel) (ev : BenchmarkEvent) (t : String) (tr : TestResult)
    (hget : m.tests.get t = some tr) (hst : tr.Status ≠ StatusRunning)
    (hev : ¬ ((ev.Typ = EventTestStart ∨ ev.Typ = EventTestComplete) ∧ ev.Test = t)) :
    statusOf (handleEvent m ev) t = some tr.Status := by
  by_cases h1 : ev.Typ = EventTestStart
  · have hk : t ≠ ev.Test := fun h => hev ⟨Or.inl h1, h.symm⟩
    simp [statusOf, handleEvent_other_test m ev t (Or.inl h1) hk, hget]
  · by_cases h2 : ev.Typ = EventSampleProgress
    · by_cases hk : t = ev.Test
      · subst hk
        rw [handleEvent_sampleProgress m ev tr h2 hget]
        simp [statusOf, TestMap.get_modify_self, hget]
      · simp [statusOf, handleEvent_other_test m ev t (Or.inr (Or.inl h2)) hk, hget]
    · by_cases h3 : ev.Typ = EventTestComplete
      · have hk : t ≠ ev.Test := fun h => hev ⟨Or.inr h3, h.symm⟩
        simp [statusOf, handleEvent_other_test m ev t (Or.inr (Or.inr h3)) hk, hget]
      · by_cases h4 : ev.Typ = EventRateLimit
        · simp [statusOf, (get_after_rateLimit m ev t tr h4 hget).2 hst]
        · by_cases h5 : ev.Typ = EventError
          · rw [handleEvent_error m ev h5]; simp [statusOf, hget]
          · by_cases h6 : ev.Typ = EventComplete
            · rw [handleEvent_complete m ev h6]; simp [statusOf, hget]
            · rw [handleEvent_unknown m ev h1 h2 h3 h4 h5 h6]; simp [statusOf, hget]

/-! ## Lemmas on the per-test protocol -/

/-- Changing a summand at one place of a duplicate-free list. -/
theorem sum_map_update (names : List String) (hnd : names.Nodup) (t : String)
    (ht : t ∈ names) (f : String → Int) (v : Int) :
    (names.map (fun x => if x = t then v else f x)).sum = (names.map f).sum - f t + v := by
  induction names with
  | nil => simp at ht
  | cons a rest ih =>
    have hnd' := List.nodup_cons.mp hnd
    simp only [List.map_cons, List.sum_cons]
    by_cases hat : a = t
    · subst hat
      have hrest : rest.map (fun x => if x = a then v else f x) = rest.map f := by
        apply List.map_congr_left
        intro x hx
        have : x ≠ a := fun h => hnd'.1 (h ▸ hx)
        simp [this]
      rw [hrest]; simp; ring
    · have ht' : t ∈ rest := by
        rcases List.mem_cons.mp ht with h | h
        · exact absurd h.symm hat
        · exact h
      rw [ih hnd'.2 ht']; simp [hat]; ring

theorem sum_map_le (names : List String) (f : String → Int) (h : ∀ x, f x ≤ 10) :
    (names.map f).sum ≤ 10 * names.length := by
  induction names with
  | nil => simp
  | cons a rest ih =>
    simp only [List.map_cons, List.sum_cons, List.length_cons]
    have := h a
    push_cast
    linarith

theorem creditSum_update (proto : String → Phase) (t : String) (ht : t ∈ testNames)
    (p : Phase) :
    creditSum (fun x => if x = t then p else proto x) =
      creditSum proto - (proto t).credit + p.credit := by
  unfold creditSum
  have h := sum_map_update testNames (by decide) t ht (fun x => (proto x).credit) p.credit
  rw [← h]
  congr 1
  apply List.map_congr_left
  intro x _
  by_cases hx : x = t <;> simp [hx]

theorem creditSum_le (proto : String → Phase) (h : ∀ t, (proto t).credit ≤ 10) :
    creditSum proto ≤ 90 := by
  have := sum_map_le testNames (fun t => (proto t).credit) h
  simpa [creditSum, testNames] using this

theorem handleEvent_totalSamples (m : BenchmarkModel) (ev : BenchmarkEvent) :
    (handleEvent m ev).totalSamples = m.totalSamples := by
  unfold handleEvent
  split_ifs <;> (try split) <;> rfl

theorem handleEvents_totalSamples (events : List BenchmarkEvent) (m : BenchmarkModel) :
    (handleEvents m events).totalSamples = m.totalSamples := by
  induction events generalizing m with
  | nil => rfl
  | cons ev rest ih =>
    have h := ih (handleEvent m ev)
    simp only [handleEvents, List.foldl_cons] at h ⊢
    rw [h, handleEvent_totalSamples]

theorem ProtoInv_initial (s : SharedState) :
    ProtoInv (NewBenchmarkModel s) (fun _ => Phase.fresh) where
  tracked := by
    intro t ht
    exact ⟨_, get_initial testNames t ht, fun _ => rfl, fun _ h => by cases h⟩
  range := by intro _; simp [Phase.credit]
  bound := by
    have : creditSum (fun _ => Phase.fresh) = 0 := by decide
    rw [this]; exact le_refl _
  keys := rfl

/-- An event that is not a `TestStart`, `SampleProgress` or `TestComplete` event
leaves the current count of every test as it is. -/
theorem handleEvent_current_kept (m : BenchmarkModel) (ev : BenchmarkEvent) (t : String)
    (h1 : ev.Typ ≠ EventTestStart) (h2 : ev.Typ ≠ EventSampleProgress)
    (h3 : ev.Typ ≠ EventTestComplete) :
    ((handleEvent m ev).tests.get t).map (fun tr => tr.Current) =
      (m.tests.get t).map (fun tr => tr.Current) := by
  by_cases h4 : ev.Typ = EventRateLimit
  · rw [handleEvent_rateLimit m ev h4]
    simp only [TestMap.get_forEach]
    cases m.tests.get t with
    | none => rfl
    | some tr =>
      simp only [Option.map_some']
      split_ifs <;> rfl
  · by_cases h5 : ev.Typ = EventError
    · rw [handleEvent_error m ev h5]
    · by_cases h6 : ev.Typ = EventComplete
      · rw [handleEvent_complete m ev h6]
      · rw [handleEvent_unknown m ev h1 h2 h3 h4 h5 h6]

/-- An event that is passed over by the protocol (any event that is not a
`TestStart`, `SampleProgress` or `TestComplete` event naming a known test) keeps
the invariant with the same phases and leaves the global counter as it is. -/
theorem ProtoInv_skip (m : BenchmarkModel) (proto : String → Phase) (ev : BenchmarkEvent)
    (inv : ProtoInv m proto)
    (hskip : ¬ (ev.Test ∈ testNames ∧
      (ev.Typ = EventTestStart ∨ ev.Typ = EventSampleProgress ∨
        ev.Typ = EventTestComplete))) :
    ProtoInv (handleEvent m ev) proto ∧
      (handleEvent m ev).currentCount = m.currentCount := by
  by_cases hty : ev.Typ = EventTestStart ∨ ev.Typ = EventSampleProgress ∨
      ev.Typ = EventTestComplete
  · have hunknown : ev.Test ∉ testNames := fun h => hskip ⟨h, hty⟩
    have hget : m.tests.get ev.Test = none := by
      cases hg : m.tests.get ev.Test with
      | none => rfl
      | some tr =>
        have hsome : (m.tests.get ev.Test).isSome = true := by rw [hg]; rfl
        have hmem := (TestMap.get_isSome_iff m.tests ev.Test).mp hsome
        rw [inv.keys] at hmem
        exact absurd hmem hunknown
    rw [handleEvent_untracked m ev hty hget]
    exact ⟨inv, rfl⟩
  · push_neg at hty
    obtain ⟨h1, h2, h3⟩ := hty
    have hcount := handleEvent_count_kept m ev h2
    refine ⟨⟨?_, inv.range, ?_, ?_⟩, hcount⟩
    · intro t ht
      obtain ⟨tr, hg, hf, hs⟩ := inv.tracked t ht
      have hcur := handleEvent_current_kept m ev t h1 h2 h3
      rw [hg] at hcur
      cases hg' : (handleEvent m ev).tests.get t with
      | none => rw [hg'] at hcur; simp at hcur
      | some tr' =>
        rw [hg'] at hcur
        simp only [Option.map_some', Option.some.injEq] at hcur
        exact ⟨tr', rfl, fun h => by rw [hcur]; exact hf h,
          fun last h => by rw [hcur]; exact hs last h⟩
    · rw [hcount]; exact inv.bound
    · rw [handleEvent_keys]; exact inv.keys

/-- One event that fits the protocol keeps the invariant, and raises the global
counter by one exactly when it is a `SampleProgress` event. -/
theorem ProtoInv_step (m : BenchmarkModel) (proto : String → Phase) (ev : BenchmarkEvent)
    (p : Phase) (inv : ProtoInv m proto) (hknown : ev.Test ∈ testNames)
    (hnext : (proto ev.Test).next ev = some p) :
    ProtoInv (handleEvent m ev) (fun t => if t = ev.Test then p else proto t) ∧
      (handleEvent m ev).currentCount =
        m.currentCount + (if ev.Typ = EventSampleProgress then 1 else 0) := by
  obtain ⟨tr, hget, hfresh, hsamp⟩ := inv.tracked ev.Test hknown
  have hsum := creditSum_update proto ev.Test hknown p
  have hrange := inv.range ev.Test
  have hbound := inv.bound
  have hty3 : ev.Typ = EventTestStart ∨ ev.Typ = EventSampleProgress ∨
      ev.Typ = EventTestComplete := by
    by_contra h
    push_neg at h
    simp [Phase.next, h.1, h.2.1, h.2.2] at hnext
  have hothers : ∀ t ∈ testNames, t ≠ ev.Test →
      ∃ tr', (handleEvent m ev).tests.get t = some tr' ∧
        (proto t = Phase.fresh → tr'.Current = 0) ∧
        (∀ last, proto t = Phase.sampling last → tr'.Current = last) := by
    intro t ht hne
    obtain ⟨tr', hg, hf, hs⟩ := inv.tracked t ht
    exact ⟨tr', by rw [handleEvent_other_test m ev t hty3 hne]; exact hg, hf, hs⟩
  have key :
      (∃ tr', (handleEvent m ev).tests.get ev.Test = some tr' ∧
        (p = Phase.fresh → tr'.Current = 0) ∧
        (∀ last, p = Phase.sampling last → tr'.Current = last)) ∧
      (0 ≤ p.credit ∧ p.credit ≤ 10) ∧
      (handleEvent m ev).currentCount ≤ creditSum proto - (proto ev.Test).credit + p.credit ∧
      (handleEvent m ev).currentCount =
        m.currentCount + (if ev.Typ = EventSampleProgress then 1 else 0) := by
    have d1 : ¬ EventSampleProgress = EventTestStart := by decide
    have d2 : ¬ EventTestComplete = EventTestStart := by decide
    have d3 : ¬ EventTestComplete = EventSampleProgress := by decide
    have d4 : ¬ EventTestStart = EventSampleProgress := by decide
    rcases hty3 with h1 | h2 | h3
    · -- TestStart
      cases hp : proto ev.Test with
      | fresh =>
        simp [Phase.next, hp, h1] at hnext
        subst hnext
        rw [handleEvent_testStart m ev tr h1 hget]
        refine ⟨⟨_, (by simp only [TestMap.get_modify_self, hget]; rfl), ?_, ?_⟩, ?_, ?_, ?_⟩
        · intro h; cases h
        · intro last h; cases h; rfl
        · simp [Phase.credit]
        · rw [hp] at hrange
          simp only [Phase.credit] at hrange ⊢
          linarith
        · simp [h1, d4]
      | sampling l => simp [Phase.next, hp, h1] at hnext
      | finished => simp [Phase.next, hp, h1] at hnext
    · -- SampleProgress
      cases hp : proto ev.Test with
      | fresh =>
        simp [Phase.next, hp, h2, d1] at hnext
        obtain ⟨⟨hlo, hhi⟩, hnp⟩ := hnext
        subst hnp
        have hcur : tr.Current = 0 := hfresh hp
        rw [handleEvent_sampleProgress m ev tr h2 hget]
        have hgt : ev.Sample > tr.Current := by rw [hcur]; omega
        refine ⟨⟨_, (by simp only [TestMap.get_modify_self, hget]; rfl), ?_, ?_⟩, ?_, ?_, ?_⟩
        · intro h; cases h
        · intro last h; cases h; rfl
        · simp only [Phase.credit]; omega
        · simp only [Phase.credit, hgt, if_true]
          linarith
        · simp [h2, hgt]
      | sampling l =>
        simp [Phase.next, hp, h2, d1] at hnext
        obtain ⟨⟨hlt, hlo, hhi⟩, hnp⟩ := hnext
        subst hnp
        have hcur : tr.Current = l := hsamp l hp
        rw [handleEvent_sampleProgress m ev tr h2 hget]
        have hgt : ev.Sample > tr.Current := by rw [hcur]; omega
        refine ⟨⟨_, (by simp only [TestMap.get_modify_self, hget]; rfl), ?_, ?_⟩, ?_, ?_, ?_⟩
        · intro h; cases h
        · intro last h; cases h; rfl
        · simp only [Phase.credit]; omega
        · simp only [Phase.credit, hgt, if_true]
          linarith
        · simp [h2, hgt]
      | finished => simp [Phase.next, hp, h2, d1] at hnext
    · -- TestComplete
      have hp10 : p = Phase.finished := by
        cases hp : proto ev.Test <;> simp [Phase.next, hp, h3, d2, d3] at hnext
        · exact hnext.symm
        · exact hnext.symm
      subst hp10
      rw [handleEvent_testComplete m ev tr h3 hget]
      refine ⟨⟨_, (by simp only [TestMap.get_modify_self, hget]; rfl), ?_, ?_⟩, ?_, ?_, ?_⟩
      · intro h; cases h
      · intro last h; cases h
      · simp [Phase.credit]
      · show m.currentCount ≤ creditSum proto - (proto ev.Test).credit + 10
        linarith [hrange.2]
      · simp [h3, d3]
  obtain ⟨ha, hb, hc, hd⟩ := key
  refine ⟨⟨?_, ?_, ?_, by rw [handleEvent_keys]; exact inv.keys⟩, hd⟩
  · intro t ht
    by_cases hte : t = ev.Test
    · subst hte
      simpa using ha
    · simpa [hte] using hothers t ht hte
  · intro t
    by_cases hte : t = ev.Test
    · simp only [hte, if_true]; exact hb
    · simp only [hte, if_false]; exact inv.range t
  · rw [hsum]; exact hc

/-- Along a sequence that keeps to the protocol the global counter grows by the
number of `SampleProgress` events that name a known test, and the invariant
holds at the end. -/
theorem followsProtocol_run (events : List BenchmarkEvent) (m : BenchmarkModel)
    (proto : String → Phase) (inv : ProtoInv m proto)
    (hvalid : followsProtocol proto events = true) :
    (handleEvents m events).currentCount = m.currentCount + knownSampleCount events ∧
      ∃ proto', ProtoInv (handleEvents m events) proto' := by
  induction events generalizing m proto with
  | nil => exact ⟨by simp [handleEvents, knownSampleCount], proto, inv⟩
  | cons ev rest ih =>
    simp only [followsProtocol] at hvalid
    by_cases hstep : ev.Test ∈ testNames ∧
        (ev.Typ = EventTestStart ∨ ev.Typ = EventSampleProgress ∨ ev.Typ = EventTestComplete)
    · simp only [hstep, if_true] at hvalid
      cases hnext : (proto ev.Test).next ev with
      | none => simp [hnext] at hvalid
      | some p =>
        simp only [hnext] at hvalid
        obtain ⟨inv', hcount⟩ := ProtoInv_step m proto ev p inv hstep.1 hnext
        obtain ⟨hc, hex⟩ := ih (handleEvent m ev) _ inv' hvalid
        refine ⟨?_, hex⟩
        simp only [handleEvents, List.foldl_cons] at hc ⊢
        rw [hc, hcount]
        by_cases hsp : ev.Typ = EventSampleProgress
        · simp [knownSampleCount, List.filter_cons, hsp, hstep.1]; ring
        · simp [knownSampleCount, List.filter_cons, hsp]
    · simp only [hstep, if_false] at hvalid
      obtain ⟨inv', hcount⟩ := ProtoInv_skip m proto ev inv hstep
      obtain ⟨hc, hex⟩ := ih (handleEvent m ev) _ inv' hvalid
      refine ⟨?_, hex⟩
      simp only [handleEvents, List.foldl_cons] at hc ⊢
      rw [hc, hcount]
      have hnot : ¬ (ev.Typ = EventSampleProgress ∧ ev.Test ∈ testNames) :=
        fun h => hstep ⟨h.2, Or.inr (Or.inl h.1)⟩
      simp [knownSampleCount, List.filter_cons, hnot]

/-- Every prefix of a sequence that keeps to the protocol keeps to it. -/
theorem followsProtocol_take (events : List BenchmarkEvent) (proto : String → Phase) (n : Nat)
    (hvalid : followsProtocol proto events = true) :
    followsProtocol proto (events.take n) = true := by
  induction events generalizing proto n with
  | nil => simp [followsProtocol]
  | cons ev rest ih =>
    cases n with
    | zero => simp [followsProtocol]
    | succ k =>
      simp only [followsProtocol, List.take_succ_cons] at hvalid ⊢
      by_cases hstep : ev.Test ∈ testNames ∧
          (ev.Typ = EventTestStart ∨ ev.Typ = EventSampleProgress ∨ ev.Typ = EventTestComplete)
      · simp only [hstep, if_true] at hvalid ⊢
        cases hnext : (proto ev.Test).next ev with
        | none => simp [hnext] at hvalid
        | some p =>
          simp only [hnext] at hvalid ⊢
          exact ih _ k hvalid
      · simp only [hstep, if_false] at hvalid ⊢
        exact ih _ k hvalid

/-- When every `SampleProgress` event of a sequence names a known test, the
`SampleProgress` events naming a known test are all its `SampleProgress`
events. -/
theorem knownSampleCount_eq (events : List BenchmarkEvent)
    (hknown : ∀ e ∈ events, e.Typ = EventSampleProgress → e.Test ∈ testNames) :
    knownSampleCount events = sampleProgressCount events := by
  unfold knownSampleCount sampleProgressCount
  congr 1
  apply List.filter_congr
  intro e he
  by_cases hsp : e.Typ = EventSampleProgress
  · simp [hsp, hknown e he hsp]
  · simp [hsp]

theorem Phase.run_append (a b : List BenchmarkEvent) (p : Phase) :
    Phase.run p (a ++ b) = (Phase.run p a).bind (fun q => Phase.run q b) := by
  induction a generalizing p with
  | nil => simp [Phase.run]
  | cons e rest ih =>
    simp only [List.cons_append, Phase.run]
    cases h : p.next e with
    | none => simp
    | some q => simp [ih]

/-- A run of `SampleProgress` events with increasing indices within 1..10, all
above the last index so far, keeps a test that has not completed within the
protocol and does not complete it. -/
theorem Phase.run_samples (mid : List BenchmarkEvent) (p : Phase) (hp : p ≠ Phase.finished)
    (hmid : ∀ e ∈ mid, e.Typ = EventSampleProgress ∧ 1 ≤ e.Sample ∧ e.Sample ≤ 10)
    (hinc : (mid.map (fun e => e.Sample)).Pairwise (fun a b => a < b))
    (habove : ∀ last, p = Phase.sampling last → ∀ e ∈ mid, last < e.Sample) :
    ∃ q, Phase.run p mid = some q ∧ q ≠ Phase.finished := by
  induction mid generalizing p with
  | nil => exact ⟨p, rfl, hp⟩
  | cons e rest ih =>
    obtain ⟨hty, hlo, hhi⟩ := hmid e (List.mem_cons_self _ _)
    have d1 : ¬ EventSampleProgress = EventTestStart := by decide
    simp only [List.map_cons, List.pairwise_cons] at hinc
    have hnext : p.next e = some (Phase.sampling e.Sample) := by
      cases p with
      | fresh => simp [Phase.next, hty, d1, hlo, hhi]
      | sampling l =>
        have := habove l rfl e (List.mem_cons_self _ _)
        simp [Phase.next, hty, d1, hlo, hhi, this]
      | finished => exact absurd rfl hp
    simp only [Phase.run, hnext]
    apply ih
    · intro h; cases h
    · intro e' he'; exact hmid e' (List.mem_cons_of_mem _ he')
    · exact hinc.2
    · intro last hl e' he'
      cases hl
      exact hinc.1 e'.Sample (List.mem_map_of_mem _ he')

/-- A sequence of the shape described by `PerTestPattern` is accepted by the
protocol from the fresh phase. -/
theorem Phase.run_of_pattern (events : List BenchmarkEvent) (h : PerTestPattern events) :
    ∃ q, Phase.run Phase.fresh events = some q := by
  obtain ⟨start, mid, done, rfl, hs1, hs, hmid, hinc, hd1, hd⟩ := h
  have d2 : ¬ EventTestComplete = EventTestStart := by decide
  have d3 : ¬ EventTestComplete = EventSampleProgress := by decide
  -- after the optional `TestStart`
  have hstart : ∃ p, Phase.run Phase.fresh start = some p ∧ p ≠ Phase.finished ∧
      ∀ last, p = Phase.sampling last → last = 0 := by
    match start, hs1, hs with
    | [], _, _ => exact ⟨Phase.fresh, rfl, (by intro h; cases h), (by intro _ h; cases h)⟩
    | [e], _, hs =>
      have hty := hs e (List.mem_cons_self _ _)
      refine ⟨Phase.sampling 0, (by simp [Phase.run, Phase.next, hty]), (by intro h; cases h), ?_⟩
      intro last h; cases h; rfl
    | _ :: _ :: _, hs1, _ => simp at hs1
  obtain ⟨p, hp, hpne, hp0⟩ := hstart
  obtain ⟨q, hq, hqne⟩ := Phase.run_samples mid p hpne hmid hinc (by
    intro last hl e he
    rw [hp0 last hl]
    have := (hmid e he).2.1
    omega)
  rw [Phase.run_append, Phase.run_append, hp]
  simp only [Option.bind_eq_bind, Option.some_bind, hq]
  match done, hd1, hd with
  | [], _, _ => exact ⟨q, rfl⟩
  | [e], _, hd =>
    have hty := hd e (List.mem_cons_self _ _)
    cases q with
    | fresh => exact ⟨Phase.finished, by simp [Phase.run, Phase.next, hty, d2, d3]⟩
    | sampling l => exact ⟨Phase.finished, by simp [Phase.run, Phase.next, hty, d2, d3]⟩
    | finished => exact absurd rfl hqne
  | _ :: _ :: _, hd1, _ => simp at hd1

/-- A per-test event is the next event its test receives. -/
theorem eventsOf_cons_self (e : BenchmarkEvent) (rest : List BenchmarkEvent)
    (hty : e.Typ = EventTestStart ∨ e.Typ = EventSampleProgress ∨ e.Typ = EventTestComplete) :
    eventsOf e.Test (e :: rest) = e :: eventsOf e.Test rest := by
  unfold eventsOf
  rw [List.filter_cons_of_pos]
  simp only [decide_eq_true_eq]
  exact ⟨trivial, hty⟩

/-- An event that is not a per-test event naming `t` is not received by `t`. -/
theorem eventsOf_cons_other (t : String) (e : BenchmarkEvent) (rest : List BenchmarkEvent)
    (hne : ¬ (e.Test = t ∧
      (e.Typ = EventTestStart ∨ e.Typ = EventSampleProgress ∨ e.Typ = EventTestComplete))) :
    eventsOf t (e :: rest) = eventsOf t rest := by
  unfold eventsOf
  rw [List.filter_cons_of_neg]
  simp only [decide_eq_true_eq]
  exact hne

/-- A sequence in which the events every known test receives are accepted by the
protocol is accepted as a whole, however the events are interleaved and
whatever other events it holds. -/
theorem followsProtocol_of_runs (events : List BenchmarkEvent) (proto : String → Phase)
    (hruns : ∀ t ∈ testNames, ∃ q, Phase.run (proto t) (eventsOf t events) = some q) :
    followsProtocol proto events = true := by
  induction events generalizing proto with
  | nil => rfl
  | cons e rest ih =>
    by_cases hstep : e.Test ∈ testNames ∧
        (e.Typ = EventTestStart ∨ e.Typ = EventSampleProgress ∨ e.Typ = EventTestComplete)
    · obtain ⟨q, hq⟩ := hruns e.Test hstep.1
      rw [eventsOf_cons_self e rest hstep.2] at hq
      simp only [Phase.run] at hq
      cases hnext : (proto e.Test).next e with
      | none => simp [hnext] at hq
      | some p =>
        simp only [hnext] at hq
        simp only [followsProtocol, hstep, if_true, hnext]
        apply ih
        intro t ht
        by_cases hte : t = e.Test
        · subst hte
          exact ⟨q, by simpa using hq⟩
        · obtain ⟨q', hq'⟩ := hruns t ht
          rw [eventsOf_cons_other t e rest (fun h => hte h.1.symm)] at hq'
          exact ⟨q', by simpa [hte] using hq'⟩
    · simp only [followsProtocol, hstep, if_false]
      apply ih
      intro t ht
      obtain ⟨q', hq'⟩ := hruns t ht
      rw [eventsOf_cons_other t e rest (fun h => hstep ⟨h.1 ▸ ht, h.2⟩)] at hq'
      exact ⟨q', hq'⟩

/-- A sequence in which the events every known test receives have the shape of
`PerTestPattern` keeps to the protocol. -/
theorem followsProtocol_of_pattern (events : List BenchmarkEvent)
    (hpat : ∀ t ∈ testNames, PerTestPattern (eventsOf t events)) :
    followsProtocol (fun _ => Phase.fresh) events = true := by
  apply followsProtocol_of_runs events _
  intro t ht
  exact Phase.run_of_pattern _ (hpat t ht)

/-- What the protocol check accepts and rejects: an interleaving of two tests is
accepted, also with `RateLimit`, `Error` and `Complete` events and events of an
unknown test in between; a replayed index, an index outside 1..10, a second
`TestStart` and a sample after `TestComplete` are rejected. -/
theorem followsProtocol_examples :
    followsProtocol (fun _ => Phase.fresh) interleavedEvents = true ∧
      followsProtocol (fun _ => Phase.fresh) mixedRun = true ∧
      followsProtocol (fun _ => Phase.fresh) ghostRun = true ∧
      followsProtocol (fun _ => Phase.fresh) (sampleEvents "counter" [1, 2, 1, 2] 10) = false ∧
      followsProtocol (fun _ => Phase.fresh) (sampleEvents "counter" [0] 10) = false ∧
      followsProtocol (fun _ => Phase.fresh) (sampleEvents "counter" [11] 10) = false ∧
      followsProtocol (fun _ => Phase.fresh)
        [evTestStart "counter", evTestStart "counter"] = false ∧
      followsProtocol (fun _ => Phase.fresh)
        [evTestComplete "counter" true 1, evSampleProgress "counter" 1 10] = false := by
  decide

/-- In the run of two interleaved tests the events every known test receives have
the shape of `PerTestPattern`. -/
theorem interleavedEvents_pattern :
    ∀ t ∈ testNames, PerTestPattern (eventsOf t interleavedEvents) := by
  intro t ht
  simp only [testNames, List.mem_cons, List.mem_singleton, List.not_mem_nil, or_false] at ht
  rcases ht with rfl | rfl | rfl | rfl | rfl | rfl | rfl | rfl | rfl
  · exact ⟨[], [], [], rfl, by decide, by decide, by decide, by decide, by decide, by decide⟩
  · exact ⟨[evTestStart "counter"],
      [evSampleProgress "counter" 1 10, evSampleProgress "counter" 2 10,
       evSampleProgress "counter" 5 10],
      [evTestComplete "counter" true 1], rfl,
      by decide, by decide, by decide, by decide, by decide, by decide⟩
  · exact ⟨[], [], [], rfl, by decide, by decide, by decide, by decide, by decide, by decide⟩
  · exact ⟨[], [], [], rfl, by decide, by decide, by decide, by decide, by decide, by decide⟩
  · exact ⟨[], [evSampleProgress "each" 3 10, evSampleProgress "each" 4 10], [], rfl,
      by decide, by decide, by decide, by decide, by decide, by decide⟩
  · exact ⟨[], [], [], rfl, by decide, by decide, by decide, by decide, by decide, by decide⟩
  · exact ⟨[], [], [], rfl, by decide, by decide, by decide, by decide, by decide, by decide⟩
  · exact ⟨[], [], [], rfl, by decide, by decide, by decide, by decide, by decide, by decide⟩
  · exact ⟨[], [], [], rfl, by decide, by decide, by decide, by decide, by decide, by decide⟩

/-- In the complete run with events of every kind the events every known test
receives have the shape of `PerTestPattern`. -/
theorem mixedRun_pattern : ∀ t ∈ testNames, PerTestPattern (eventsOf t mixedRun) := by
  intro t ht
  simp only [testNames, List.mem_cons, List.mem_singleton, List.not_mem_nil, or_false] at ht
  rcases ht with rfl | rfl | rfl | rfl | rfl | rfl | rfl | rfl | rfl
  · exact ⟨[], [], [], rfl, by decide, by decide, by decide, by decide, by decide, by decide⟩
  · exact ⟨[evTestStart "counter"],
      [evSampleProgress "counter" 1 10, evSampleProgress "counter" 2 10,
       evSampleProgress "counter" 5 10],
      [evTestComplete "counter" true 1], rfl,
      by decide, by decide, by decide, by decide, by decide, by decide⟩
  · exact ⟨[], [], [], rfl, by decide, by decide, by decide, by decide, by decide, by decide⟩
  · exact ⟨[], [], [], rfl, by decide, by decide, by decide, by decide, by decide, by decide⟩
  · exact ⟨[], [evSampleProgress "each" 3 10, evSampleProgress "each" 4 10], [], rfl,
      by decide, by decide, by decide, by decide, by decide, by decide⟩
  · exact ⟨[], [], [], rfl, by decide, by decide, by decide, by decide, by decide, by decide⟩
  · exact ⟨[], [], [], rfl, by decide, by decide, by decide, by decide, by decide, by decide⟩
  · exact ⟨[], [], [], rfl, by decide, by decide, by decide, by decide, by decide, by decide⟩
  · exact ⟨[], [], [], rfl, by decide, by decide, by decide, by decide, by decide, by decide⟩

/-- No known test receives an event in the run of the unknown test `ghost`. -/
theorem ghostRun_pattern : ∀ t ∈ testNames, PerTestPattern (eventsOf t ghostRun) := by
  intro t ht
  have hnil : eventsOf t ghostRun = [] :=
    (by decide : ∀ t ∈ testNames, eventsOf t ghostRun = []) t ht
  rw [hnil]
  exact ⟨[], [], [], rfl, by decide, by decide, by decide, by decide, by decide, by decide⟩

/-! ## Claims -/

/-- C1 (evaluation at the failing input): the worker writes a line that decodes,
a line of 70000 bytes that is not JSON, and another line that decodes, and the
stream ends without a read error.  The filter-map of the decoder over these
lines has two events, but `ParseEventStream` calls the handler once, for the
first line only, and returns `error reading stream: bufio.Scanner: token too
long`: the long line is not skipped, it ends the scanning, and the event of the
line after it is never delivered.  `ParseEvents` makes the same single call. -/
theorem C1_long_line_ends_calls :
    longLine.utf8ByteSize = 70000 ∧
      scenarioUnmarshal longLine = none ∧
      [sampleLine, longLine, errorLine].filterMap scenarioUnmarshal =
        [evSampleProgress "counter" 1 10, evError "boom"] ∧
      NewScanner ⟨[sampleLine, longLine, errorLine], none⟩ =
        ⟨[sampleLine], some "bufio.Scanner: token too long"⟩ ∧
      ParseEventStream scenarioUnmarshal (NewScanner ⟨[sampleLine, longLine, errorLine], none⟩)
          recordCall [] =
        ([evSampleProgress "counter" 1 10],
          some "error reading stream: bufio.Scanner: token too long") ∧
      ParseEvents scenarioUnmarshal (NewScanner ⟨[sampleLine, longLine, errorLine], none⟩)
          recordCall [] =
        ([evSampleProgress "counter" 1 10], some "bufio.Scanner: token too long") := by
  have hscan : NewScanner ⟨[sampleLine, longLine, errorLine], none⟩ =
      ⟨[sampleLine], some "bufio.Scanner: token too long"⟩ :=
    scanLines_long none [sampleLine] [errorLine] longLine (by decide)
      (by rw [longLine_size]; decide)
  refine ⟨longLine_size, scenarioUnmarshal_longLine, ?_, hscan, ?_, ?_⟩
  · have h1 : scenarioUnmarshal sampleLine = some (evSampleProgress "counter" 1 10) := by decide
    have h2 : scenarioUnmarshal errorLine = some (evError "boom") := by decide
    simp [List.filterMap_cons, h1, h2, scenarioUnmarshal_longLine]
  · rw [hscan]; decide
  · rw [hscan]; decide

/-- C2 (evaluation at the failing input): after `TestStart{counter}` and the
sample indices 1, 2, 1 the global counter is 2, and the replayed index 2, which
was already reported for the test, raises it to 3. -/
theorem C2_replayed_index_increments :
    (handleEvents (NewBenchmarkModel {})
        (evTestStart "counter" :: sampleEvents "counter" [1, 2, 1] 10)).currentCount = 2 ∧
      (handleEvents (NewBenchmarkModel {})
        (evTestStart "counter" :: sampleEvents "counter" [1, 2, 1, 2] 10)).currentCount = 3 := by
  decide

/-- C3 (as stated, refuted): on the indices 0,1,1,2,4,3 from the freshly started
state the counter does not gain 4 and the recorded current count does not end at 4. -/
theorem C3_counterexample :
    ¬ ((handleEvents (NewBenchmarkModel {})
          (evTestStart "counter" :: sampleEvents "counter" [0, 1, 1, 2, 4, 3] 10)).currentCount = 4 ∧
        currentOf (handleEvents (NewBenchmarkModel {})
          (evTestStart "counter" :: sampleEvents "counter" [0, 1, 1, 2, 4, 3] 10)) "counter"
          = some 4) := by
  decide

/-- C3 (amended): on the indices 0,1,1,2,4,3 from the freshly started state the
global counter is incremented on the indices 1, 2 and 4 only (3 increments: it
reads 0,0,1,1,2,3,3 before the first and after each event), and the recorded
current count ends at the last index delivered, 3. -/
theorem C3_out_of_order_indices :
    countTrace (handleEvent (NewBenchmarkModel {}) (evTestStart "counter"))
        (sampleEvents "counter" [0, 1, 1, 2, 4, 3] 10) = [0, 0, 1, 1, 2, 3, 3] ∧
      currentOf (handleEvent (NewBenchmarkModel {}) (evTestStart "counter")) "counter" = some 0 ∧
      currentOf (handleEvents (NewBenchmarkModel {})
        (evTestStart "counter" :: sampleEvents "counter" [0, 1, 1, 2, 4, 3] 10)) "counter"
        = some 3 := by
  decide

/-- C4: a `SampleProgress` event with index `i` naming a known test whose
recorded current count is `p` sets that test's current count to `i` and changes
the global counter by +1 if `i > p` and by 0 otherwise. -/
theorem C4_sampleProgress_step (m : BenchmarkModel) (ev : BenchmarkEvent) (t : TestResult)
    (hty : ev.Typ = EventSampleProgress) (hget : m.tests.get ev.Test = some t) :
    currentOf (handleEvent m ev) ev.Test = some ev.Sample ∧
      (handleEvent m ev).currentCount =
        m.currentCount + (if ev.Sample > t.Current then 1 else 0) := by
  rw [handleEvent_sampleProgress m ev t hty hget]
  refine ⟨?_, ?_⟩
  · simp [currentOf, TestMap.get_modify_self, hget]
  · by_cases h : ev.Sample > t.Current <;> simp [h]

theorem C4_sampleProgress_step_witness :
    currentOf (handleEvent (NewBenchmarkModel {}) (evSampleProgress "counter" 3 10)) "counter"
        = some 3 ∧
      (handleEvent (NewBenchmarkModel {}) (evSampleProgress "counter" 3 10)).currentCount =
        0 + (if (3 : Int) > 0 then 1 else 0) :=
  C4_sampleProgress_step (NewBenchmarkModel {}) (evSampleProgress "counter" 3 10)
    { TestName := "counter", Total := 10, Current := 0, Status := StatusQueued } rfl rfl

/-- C5 (as stated, refuted): after the end-to-end scenario the snapshot entry of
`counter` does not have current = 10. -/
theorem C5_counterexample :
    ¬ (currentOf (handleEvents (NewBenchmarkModel {}) endToEndEvents) "counter" = some 10) ∧
      ¬ (((handleEvents (NewBenchmarkModel {}) endToEndEvents).state.Results.filter
          (fun r => r.TestName = "counter")).map (fun r => r.Current) = [10]) := by
  decide

/-- C5 (amended): after the end-to-end scenario `counter` has status Completed,
passAtOne 0.8 and current 0 (it was 10 before `TestComplete`, which stores the
event's absent total, 0); the global completed count is 10; no error is
recorded; the snapshot taken by `Complete` holds that state of `counter`; and
the presentation loop on the closed channel ends with the run marked completed. -/
theorem C5_end_to_end :
    statusOf (handleEvents (NewBenchmarkModel {}) endToEndEvents) "counter"
        = some StatusCompleted ∧
      passAtOneOf (handleEvents (NewBenchmarkModel {}) endToEndEvents) "counter" = some 0.8 ∧
      currentOf (handleEvents (NewBenchmarkModel {}) (endToEndEvents.take 11)) "counter"
        = some 10 ∧
      currentOf (handleEvents (NewBenchmarkModel {}) endToEndEvents) "counter" = some 0 ∧
      (handleEvents (NewBenchmarkModel {}) endToEndEvents).currentCount = 10 ∧
      (handleEvents (NewBenchmarkModel {}) endToEndEvents).state.Error = "" ∧
      (handleEvents (NewBenchmarkModel {}) endToEndEvents).state.Results.filter
          (fun r => r.TestName = "counter") =
        [{ TestName := "counter", Current := 0, Total := 10, Passed := true, PassAtOne := 0.8,
           PassAtTen := 0, Status := StatusCompleted, RetryAfter := 0 }] ∧
      (presentationLoop (NewBenchmarkModel {}) ⟨endToEndEvents, true⟩).state.Completed = true ∧
      (presentationLoop (NewBenchmarkModel {}) ⟨endToEndEvents, true⟩).state.Error = "" := by
  refine ⟨by decide, rfl, by decide, by decide, by decide, by decide, rfl, by decide, by decide⟩

/-- C6 (as stated, refuted): an event delivered after an `Error` event is handed
to `handleEvent` like any other; `TestStart{counter}` after the error moves
`counter` from Queued to Running, and a following `SampleProgress` raises the
global counter. -/
theorem C6_counterexample :
    Update (handleEvent (NewBenchmarkModel {}) (evError "boom"))
        (.benchmarkEventMsg (evTestStart "counter")) =
      (.benchmark (handleEvent (handleEvent (NewBenchmarkModel {}) (evError "boom"))
        (evTestStart "counter")), .waitForEvent) ∧
      statusOf (handleEvent (NewBenchmarkModel {}) (evError "boom")) "counter"
        = some StatusQueued ∧
      statusOf (handleEvent (handleEvent (NewBenchmarkModel {}) (evError "boom"))
        (evTestStart "counter")) "counter" = some StatusRunning ∧
      (handleEvent (NewBenchmarkModel {}) (evError "boom")).currentCount = 0 ∧
      (handleEvents (handleEvent (NewBenchmarkModel {}) (evError "boom"))
        [evTestStart "counter", evSampleProgress "counter" 1 10]).currentCount = 1 := by
  decide

/-- C6 (amended): an `Error` event itself mutates no `TestState` and leaves the
global counter unchanged; events delivered after it are still processed, each
by `handleEvent`, and the test states and the counter they lead to are exactly
those the same events produce without the `Error` event. -/
theorem C6_error_does_not_stop_events (m : BenchmarkModel) (ev : BenchmarkEvent)
    (events : List BenchmarkEvent) (hty : ev.Typ = EventError) :
    (handleEvent m ev).tests = m.tests ∧
      (handleEvent m ev).currentCount = m.currentCount ∧
      presentationLoop (handleEvent m ev) ⟨events, false⟩ =
        .benchmark (handleEvents (handleEvent m ev) events) ∧
      (handleEvents (handleEvent m ev) events).tests = (handleEvents m events).tests ∧
      (handleEvents (handleEvent m ev) events).currentCount =
        (handleEvents m events).currentCount := by
  have ht : (handleEvent m ev).tests = m.tests := by rw [handleEvent_error m ev hty]
  have hc : (handleEvent m ev).currentCount = m.currentCount := by
    rw [handleEvent_error m ev hty]
  obtain ⟨h1, h2⟩ := handleEvents_tests_count_congr events (handleEvent m ev) m ht hc
  exact ⟨ht, hc, presentationLoop_open _ _, h1, h2⟩

theorem C6_error_does_not_stop_events_witness :
    (handleEvent (NewBenchmarkModel {}) (evError "boom")).tests = (NewBenchmarkModel {}).tests ∧
      (handleEvent (NewBenchmarkModel {}) (evError "boom")).currentCount =
        (NewBenchmarkModel {}).currentCount ∧
      presentationLoop (handleEvent (NewBenchmarkModel {}) (evError "boom"))
          ⟨[evTestStart "counter"], false⟩ =
        .benchmark (handleEvents (handleEvent (NewBenchmarkModel {}) (evError "boom"))
          [evTestStart "counter"]) ∧
      (handleEvents (handleEvent (NewBenchmarkModel {}) (evError "boom"))
          [evTestStart "counter"]).tests =
        (handleEvents (NewBenchmarkModel {}) [evTestStart "counter"]).tests ∧
      (handleEvents (handleEvent (NewBenchmarkModel {}) (evError "boom"))
          [evTestStart "counter"]).currentCount =
        (handleEvents (NewBenchmarkModel {}) [evTestStart "counter"]).currentCount :=
  C6_error_does_not_stop_events (NewBenchmarkModel {}) (evError "boom")
    [evTestStart "counter"] rfl

/-- C7 (as stated, refuted): after an `Error` event the queue-closed sentinel
still marks the run completed, and a later `Error` event with empty text
empties the recorded error. -/
theorem C7_counterexample :
    (handleEvent (NewBenchmarkModel {}) (evError "boom")).state.Completed = false ∧
      (presentationLoop (handleEvent (NewBenchmarkModel {}) (evError "boom"))
        ⟨[], true⟩).state.Completed = true ∧
      (presentationLoop (handleEvent (NewBenchmarkModel {}) (evError "boom"))
        ⟨[evError ""], false⟩).state.Error = "" := by
  decide

/-- C7 (amended): once an `Error` event has been processed the run is not
running and, through every continuation of events none of which is a further
`Error` event, the recorded error stays that event's text (non-empty when the
text is) and `Completed` keeps its value while the channel is open; when the
queue-closed sentinel is delivered the run is marked completed
(`Completed = true`) with the error still recorded. -/
theorem C7_error_then_continuation (m : BenchmarkModel) (ev : BenchmarkEvent)
    (events : List BenchmarkEvent) (hty : ev.Typ = EventError)
    (hno : ∀ e ∈ events, e.Typ ≠ EventError) :
    (handleEvent m ev).running = false ∧
      (handleEvent m ev).state.Error = ev.Error ∧
      (presentationLoop (handleEvent m ev) ⟨events, false⟩).state.Error = ev.Error ∧
      (presentationLoop (handleEvent m ev) ⟨events, false⟩).state.Completed
        = m.state.Completed ∧
      (presentationLoop (handleEvent m ev) ⟨events, true⟩).state.Error = ev.Error ∧
      (presentationLoop (handleEvent m ev) ⟨events, true⟩).state.Completed = true := by
  have hrun : (handleEvent m ev).running = false := by rw [handleEvent_error m ev hty]
  have herr : (handleEvent m ev).state.Error = ev.Error := by rw [handleEvent_error m ev hty]
  have hcomp : (handleEvent m ev).state.Completed = m.state.Completed :=
    handleEvent_completed m ev
  have hkeep := handleEvents_error_kept events (handleEvent m ev) hno
  have hkeepc := handleEvents_completed events (handleEvent m ev)
  refine ⟨hrun, herr, ?_, ?_, ?_, ?_⟩
  · rw [presentationLoop_open]; simp [Model.state, hkeep, herr]
  · rw [presentationLoop_open]; simp [Model.state, hkeepc, hcomp]
  · rw [presentationLoop_closed]; simp [Model.state, NewResultsModel, hkeep, herr]
  · rw [presentationLoop_closed]; simp [Model.state, NewResultsModel]

theorem C7_error_then_continuation_witness :
    (handleEvent (NewBenchmarkModel {}) (evError "boom")).running = false ∧
      (handleEvent (NewBenchmarkModel {}) (evError "boom")).state.Error = "boom" ∧
      (presentationLoop (handleEvent (NewBenchmarkModel {}) (evError "boom"))
        ⟨[evTestStart "counter"], false⟩).state.Error = "boom" ∧
      (presentationLoop (handleEvent (NewBenchmarkModel {}) (evError "boom"))
        ⟨[evTestStart "counter"], false⟩).state.Completed = false ∧
      (presentationLoop (handleEvent (NewBenchmarkModel {}) (evError "boom"))
        ⟨[evTestStart "counter"], true⟩).state.Error = "boom" ∧
      (presentationLoop (handleEvent (NewBenchmarkModel {}) (evError "boom"))
        ⟨[evTestStart "counter"], true⟩).state.Completed = true :=
  C7_error_then_continuation (NewBenchmarkModel {}) (evError "boom") [evTestStart "counter"]
    rfl (by decide)

/-- C8: a `RateLimit` event with retry-after `r` moves every test that is Running
to status RateLimited and records `r` as its retry-after hint (its other fields
kept); every test whose status is not Running keeps its whole state, status and
retry hint included. -/
theorem C8_rateLimit (m : BenchmarkModel) (ev : BenchmarkEvent) (k : String) (t : TestResult)
    (hty : ev.Typ = EventRateLimit) (hget : m.tests.get k = some t) :
    (t.Status = StatusRunning →
        (handleEvent m ev).tests.get k =
          some { t with Status := StatusRateLimit, RetryAfter := ev.RetryAfter }) ∧
      (t.Status ≠ StatusRunning → (handleEvent m ev).tests.get k = some t) := by
  rw [handleEvent_rateLimit m ev hty]
  simp only [TestMap.get_forEach, hget, Option.map_some']
  constructor
  · intro h; simp [h]
  · intro h; simp [h]

theorem C8_rateLimit_witness :
    (StatusRunning = StatusRunning →
        (handleEvent (handleEvent (NewBenchmarkModel {}) (evTestStart "counter"))
            (evRateLimit 30)).tests.get "counter" =
          some { ({ TestName := "counter", Total := 10, Current := 0,
                    Status := StatusRunning } : TestResult) with
                 Status := StatusRateLimit, RetryAfter := 30 }) ∧
      (StatusRunning ≠ StatusRunning →
        (handleEvent (handleEvent (NewBenchmarkModel {}) (evTestStart "counter"))
            (evRateLimit 30)).tests.get "counter" =
          some { TestName := "counter", Total := 10, Current := 0, Status := StatusRunning }) :=
  C8_rateLimit (handleEvent (NewBenchmarkModel {}) (evTestStart "counter")) (evRateLimit 30)
    "counter" { TestName := "counter", Total := 10, Current := 0, Status := StatusRunning }
    rfl rfl

/-- C9 (as stated, refuted): `counter` Running, then `RateLimit{retryAfter: 30}`,
then `TestComplete{counter, passed: true}`: the status is Completed but the
retry-after hint is still 30, not 0. -/
theorem C9_counterexample :
    statusOf (handleEvent (NewBenchmarkModel {}) (evTestStart "counter")) "counter"
        = some StatusRunning ∧
      statusOf (handleEvents (NewBenchmarkModel {})
        [evTestStart "counter", evRateLimit 30, evTestComplete "counter" true 1]) "counter"
        = some StatusCompleted ∧
      ¬ (retryAfterOf (handleEvents (NewBenchmarkModel {})
        [evTestStart "counter", evRateLimit 30, evTestComplete "counter" true 1]) "counter"
        = some 0) := by
  decide

/-- C9 (amended): for every known test `t` that is Running, a `RateLimit` event
followed by `TestComplete{test: t, passed: true}` leaves `t` with status
Completed, and its retry-after hint still holds the value the `RateLimit` event
recorded. -/
theorem C9_rateLimit_then_complete (m : BenchmarkModel) (rl tc : BenchmarkEvent)
    (t : TestResult) (hrl : rl.Typ = EventRateLimit) (htc : tc.Typ = EventTestComplete)
    (hget : m.tests.get tc.Test = some t) (hrun : t.Status = StatusRunning)
    (hpass : tc.Passed = true) :
    statusOf (handleEvent m rl) tc.Test = some StatusRateLimit ∧
      statusOf (handleEvents m [rl, tc]) tc.Test = some StatusCompleted ∧
      retryAfterOf (handleEvents m [rl, tc]) tc.Test = some rl.RetryAfter := by
  have h1 := (get_after_rateLimit m rl tc.Test t hrl hget).1 hrun
  have h2 : handleEvents m [rl, tc] = handleEvent (handleEvent m rl) tc := rfl
  rw [h2, handleEvent_testComplete (handleEvent m rl) tc _ htc h1]
  refine ⟨?_, ?_, ?_⟩
  · simp [statusOf, h1]
  · simp [statusOf, TestMap.get_modify_self, h1, hpass]
  · simp [retryAfterOf, TestMap.get_modify_self, h1]

theorem C9_rateLimit_then_complete_witness :
    statusOf (handleEvent (handleEvent (NewBenchmarkModel {}) (evTestStart "counter"))
        (evRateLimit 30)) "counter" = some StatusRateLimit ∧
      statusOf (handleEvents (handleEvent (NewBenchmarkModel {}) (evTestStart "counter"))
        [evRateLimit 30, evTestComplete "counter" true 1]) "counter" = some StatusCompleted ∧
      retryAfterOf (handleEvents (handleEvent (NewBenchmarkModel {}) (evTestStart "counter"))
        [evRateLimit 30, evTestComplete "counter" true 1]) "counter" = some 30 :=
  C9_rateLimit_then_complete (handleEvent (NewBenchmarkModel {}) (evTestStart "counter"))
    (evRateLimit 30) (evTestComplete "counter" true 1)
    { TestName := "counter", Total := 10, Current := 0, Status := StatusRunning }
    rfl rfl rfl rfl rfl

/-- C10: for every known test in status Running or RateLimited, a `TestComplete`
event naming it sets its status to Completed when `passed` is true and to Failed
when it is false, and records the event's pass flag and its pass-at-1 and
pass-at-10 figures in the test's state (the code does not look at the previous
status, so the same holds from any status). -/
theorem C10_testComplete (m : BenchmarkModel) (ev : BenchmarkEvent) (t : TestResult)
    (hty : ev.Typ = EventTestComplete) (hget : m.tests.get ev.Test = some t)
    (_hst : t.Status = StatusRunning ∨ t.Status = StatusRateLimit) :
    ∃ t', (handleEvent m ev).tests.get ev.Test = some t' ∧
      t'.Status = (if ev.Passed then StatusCompleted else StatusFailed) ∧
      t'.Passed = ev.Passed ∧ t'.PassAtOne = ev.PassAtOne ∧ t'.PassAtTen = ev.PassAtTen := by
  rw [handleEvent_testComplete m ev t hty hget]
  simp [TestMap.get_modify_self, hget]

theorem C10_testComplete_witness :
    ∃ t', (handleEvent (handleEvent (NewBenchmarkModel {}) (evTestStart "counter"))
          (evTestComplete "counter" false (1 / 2))).tests.get "counter" = some t' ∧
      t'.Status = (if false then StatusCompleted else StatusFailed) ∧
      t'.Passed = false ∧ t'.PassAtOne = 1 / 2 ∧ t'.PassAtTen = 0 :=
  C10_testComplete (handleEvent (NewBenchmarkModel {}) (evTestStart "counter"))
    (evTestComplete "counter" false (1 / 2))
    { TestName := "counter", Total := 10, Current := 0, Status := StatusRunning }
    rfl rfl (Or.inl rfl)

/-- C11: for every known test in status Queued, a `TestStart` event naming it
sets its status to Running and its current sample count to 0 and leaves its
total, like every other field, unchanged. -/
theorem C11_testStart (m : BenchmarkModel) (ev : BenchmarkEvent) (t : TestResult)
    (hty : ev.Typ = EventTestStart) (hget : m.tests.get ev.Test = some t)
    (_hq : t.Status = StatusQueued) :
    (handleEvent m ev).tests.get ev.Test =
        some { t with Status := StatusRunning, Current := 0 } ∧
      statusOf (handleEvent m ev) ev.Test = some StatusRunning ∧
      currentOf (handleEvent m ev) ev.Test = some 0 ∧
      ((handleEvent m ev).tests.get ev.Test).map (fun r => r.Total) = some t.Total := by
  rw [handleEvent_testStart m ev t hty hget]
  simp [statusOf, currentOf, TestMap.get_modify_self, hget]

theorem C11_testStart_witness :
    (handleEvent (NewBenchmarkModel {}) (evTestStart "counter")).tests.get "counter" =
        some { ({ TestName := "counter", Total := 10, Current := 0,
                  Status := StatusQueued } : TestResult) with
               Status := StatusRunning, Current := 0 } ∧
      statusOf (handleEvent (NewBenchmarkModel {}) (evTestStart "counter")) "counter"
        = some StatusRunning ∧
      currentOf (handleEvent (NewBenchmarkModel {}) (evTestStart "counter")) "counter"
        = some 0 ∧
      ((handleEvent (NewBenchmarkModel {}) (evTestStart "counter")).tests.get "counter").map
        (fun r => r.Total) = some 10 :=
  C11_testStart (NewBenchmarkModel {}) (evTestStart "counter")
    { TestName := "counter", Total := 10, Current := 0, Status := StatusQueued } rfl rfl rfl

/-- C12: a `Complete` event sets `Results` to a list holding exactly one copy of
each tracked test's live state, in no particular order (Go ranges over the map
in an unspecified order): it is a permutation of the values of the test map, as
long as the map, every live state is in it, and it holds nothing else; the
per-test states and the global counter are unchanged.  Storing the same entries
in another order gives a permutation of the same `Results`.  In every state
reached from `NewBenchmarkModel` the names in `Results` are, up to order, the
nine known test names, each once. -/
theorem C12_complete_snapshot (m : BenchmarkModel) (ev : BenchmarkEvent)
    (hty : ev.Typ = EventComplete) :
    List.Perm (handleEvent m ev).state.Results (m.tests.map Prod.snd) ∧
      (handleEvent m ev).state.Results.length = m.tests.length ∧
      (∀ k t, m.tests.get k = some t → t ∈ (handleEvent m ev).state.Results) ∧
      (∀ r ∈ (handleEvent m ev).state.Results, ∃ k, (k, r) ∈ m.tests) ∧
      (handleEvent m ev).tests = m.tests ∧
      (handleEvent m ev).currentCount = m.currentCount ∧
      (∀ m' : BenchmarkModel, List.Perm m'.tests m.tests →
        List.Perm (handleEvent m' ev).state.Results (handleEvent m ev).state.Results) ∧
      (∀ (s : SharedState) (events : List BenchmarkEvent),
        List.Perm
          ((handleEvent (handleEvents (NewBenchmarkModel s) events) ev).state.Results.map
            (fun r => r.TestName)) testNames) ∧
      testNames.Nodup := by
  refine ⟨?_, ?_, ?_, ?_, ?_, ?_, ?_, ?_, by decide⟩
  · rw [handleEvent_complete m ev hty]
  · rw [handleEvent_complete m ev hty]; simp
  · intro k t h
    rw [handleEvent_complete m ev hty]
    exact TestMap.mem_values_of_get m.tests k t h
  · intro r hr
    rw [handleEvent_complete m ev hty] at hr
    simp only [List.mem_map] at hr
    obtain ⟨p, hp, rfl⟩ := hr
    exact ⟨p.1, hp⟩
  · rw [handleEvent_complete m ev hty]
  · rw [handleEvent_complete m ev hty]
  · intro m' hperm
    rw [handleEvent_complete m ev hty, handleEvent_complete m' ev hty]
    exact List.Perm.map Prod.snd hperm
  · intro s events
    rw [handleEvent_complete _ ev hty]
    have h := handleEvents_names events (NewBenchmarkModel s)
    simp only [List.map_map] at h ⊢
    have h0 : (NewBenchmarkModel s).tests.map (fun p => p.2.TestName) = testNames := rfl
    rw [← h0, ← h]
    exact List.Perm.refl _

theorem C12_complete_snapshot_witness :
    (handleEvent (NewBenchmarkModel {}) evComplete).state.Results.length = 9 ∧
      List.Perm
        ((handleEvent (NewBenchmarkModel {}) evComplete).state.Results.map
          (fun r => r.TestName)) testNames :=
  ⟨(C12_complete_snapshot (NewBenchmarkModel {}) evComplete rfl).2.1,
   (C12_complete_snapshot (NewBenchmarkModel {}) evComplete rfl).2.2.2.2.2.2.2.1 {} []⟩

/-- C13: the UI-facing event queue holds at most 100 events and drops on full.
Offering an event to a queue holding fewer than 100 appends it at the tail;
offering to a queue holding 100 leaves the queue as it is, the event being
discarded; either way the producer moves on to its next operation; and in every
state reached by any interleaving of producer and consumer operations the queue
holds at most 100 events. -/
theorem C13_bounded_queue (ch : Chan) (event : BenchmarkEvent) (b : Bridge)
    (events : List BenchmarkEvent) (turns : List Turn) :
    eventChanCap = 100 ∧
      (ch.buf.length < 100 → ch.offer event = { ch with buf := ch.buf ++ [event] }) ∧
      (ch.buf.length = 100 → ch.offer event = ch) ∧
      (b.step Turn.producer).pending = b.pending.tail ∧
      ((Bridge.start events).run turns).chan.buf.length ≤ 100 := by
  refine ⟨rfl, ?_, ?_, ?_, ?_⟩
  · intro h; exact Chan.offer_of_room ch event h
  · intro h; exact Chan.offer_of_full ch event (by simp [eventChanCap, h])
  · cases hp : b.pending <;> simp [Bridge.step, hp]
  · exact Bridge.run_length_le turns (Bridge.start events) (by simp [Bridge.start, Chan.empty])

theorem C13_bounded_queue_witness :
    Chan.empty.offer evComplete = { Chan.empty with buf := Chan.empty.buf ++ [evComplete] } ∧
      fullChan.offer evComplete = fullChan ∧
      ((Bridge.start [evComplete]).run [Turn.producer, Turn.consumer]).chan.buf.length ≤ 100 :=
  ⟨(C13_bounded_queue Chan.empty evComplete (Bridge.start []) [] []).2.1 (by decide),
   (C13_bounded_queue fullChan evComplete (Bridge.start []) [] []).2.2.1 (by decide),
   (C13_bounded_queue Chan.empty evComplete (Bridge.start []) [evComplete]
      [Turn.producer, Turn.consumer]).2.2.2.2⟩

/-- C14: for every interleaving of producer offers and consumer pulls, the events
the UI receives form an order-preserving subsequence of the events the producer
set out to offer (no reordering, no duplication), and the only events missing
are those discarded by an offer made while the queue held 100 events: received,
buffered, still-to-offer and discarded events together are exactly the offered
events, each once; an offer made while the queue holds fewer than 100 events
puts the event at the tail and discards nothing; when nothing is discarded, in
particular when no more than 100 events are offered, what is received, buffered
and still to be offered is the offered sequence itself.  A pull returns the
oldest buffered event; it returns the closed sentinel only when the channel is
closed and the buffer empty, so that the sentinel is the last message received
and nothing is left buffered or unsent when it arrives. -/
theorem C14_order_preserved (events : List BenchmarkEvent) (turns : List Turn) :
    List.Sublist ((Bridge.start events).run turns).receivedEvents events ∧
      List.Perm
        (((Bridge.start events).run turns).receivedEvents ++
          ((Bridge.start events).run turns).chan.buf ++
          ((Bridge.start events).run turns).pending ++ (Bridge.start events).dropped turns)
        events ∧
      ((Bridge.start events).dropped turns = [] →
        ((Bridge.start events).run turns).receivedEvents ++
          ((Bridge.start events).run turns).chan.buf ++
          ((Bridge.start events).run turns).pending = events) ∧
      (events.length ≤ 100 → (Bridge.start events).dropped turns = []) ∧
      (∀ (b : Bridge) (event : BenchmarkEvent) (rest : List BenchmarkEvent),
        b.pending = event :: rest →
          (b.chan.buf.length < 100 →
            (b.step Turn.producer).chan.buf = b.chan.buf ++ [event] ∧
            b.dropAt Turn.producer = []) ∧
          (b.chan.buf.length = 100 →
            (b.step Turn.producer).chan.buf = b.chan.buf ∧
            b.dropAt Turn.producer = [event])) ∧
      (Msg.benchmarkCompleteMsg ∈ ((Bridge.start events).run turns).received →
        ((Bridge.start events).run turns).chan.buf = [] ∧
        ((Bridge.start events).run turns).chan.closed = true ∧
        ((Bridge.start events).run turns).pending = []) ∧
      (((Bridge.start events).run turns).received =
          ((Bridge.start events).run turns).receivedEvents.map Msg.benchmarkEventMsg ∨
        ((Bridge.start events).run turns).received =
          ((Bridge.start events).run turns).receivedEvents.map Msg.benchmarkEventMsg ++
            [Msg.benchmarkCompleteMsg]) ∧
      (∀ (ch : Chan) (event : BenchmarkEvent) (rest : List BenchmarkEvent),
        ch.buf = event :: rest →
          waitForEvent ch = some (Msg.benchmarkEventMsg event, { ch with buf := rest })) ∧
      (∀ ch ch' : Chan, waitForEvent ch = some (Msg.benchmarkCompleteMsg, ch') →
        ch.buf = [] ∧ ch.closed = true) := by
  have inv := Bridge.Inv_run events turns (Bridge.start events) (Bridge.Inv_start events)
  have hacc := Bridge.account_run turns (Bridge.start events)
  have hstart : (Bridge.start events).receivedEvents ++ (Bridge.start events).chan.buf ++
      (Bridge.start events).pending = events := by
    simp [Bridge.start, Bridge.receivedEvents, Chan.empty]
  rw [hstart] at hacc
  refine ⟨?_, hacc, ?_, ?_, ?_, ?_, inv.shape, ?_, ?_⟩
  · refine List.Sublist.trans ?_ inv.sub
    rw [List.append_assoc]
    exact List.sublist_append_left _ _
  · intro hnone
    rw [hnone, List.append_nil] at hacc
    exact inv.sub.eq_of_length hacc.length_eq
  · intro hsmall
    exact Bridge.dropped_nil events turns (Bridge.start events) (Bridge.Inv_start events)
      (by simpa [eventChanCap] using hsmall)
  · intro b event rest hp
    have hstep : b.step .producer =
        { b with chan := b.chan.offer event, pending := rest } := by
      simp [Bridge.step, hp]
    constructor
    · intro hroom
      have hroom' : b.chan.buf.length < eventChanCap := by simpa [eventChanCap] using hroom
      rw [hstep, Chan.offer_of_room _ _ hroom']
      simp [Bridge.dropAt, hp, hroom']
    · intro hfull
      have hfull' : ¬ b.chan.buf.length < eventChanCap := by simp [eventChanCap, hfull]
      rw [hstep, Chan.offer_of_full _ _ hfull']
      simp [Bridge.dropAt, hp, hfull']
  · intro h
    exact ⟨(inv.sentinel h).1, (inv.sentinel h).2, inv.closedDone (inv.sentinel h).2⟩
  · intro ch event rest h
    simp [waitForEvent, h]
  · intro ch ch' h
    unfold waitForEvent at h
    split at h
    · simp at h
    · next hbuf =>
      split_ifs at h with hc
      exact ⟨hbuf, hc⟩

set_option maxRecDepth 100000 in
theorem C14_order_preserved_witness :
    ((Bridge.start [evTestStart "counter", evComplete]).run
        [Turn.producer, Turn.consumer, Turn.producer, Turn.producer, Turn.consumer,
         Turn.consumer]).receivedEvents ++
        ((Bridge.start [evTestStart "counter", evComplete]).run
          [Turn.producer, Turn.consumer, Turn.producer, Turn.producer, Turn.consumer,
           Turn.consumer]).chan.buf ++
        ((Bridge.start [evTestStart "counter", evComplete]).run
          [Turn.producer, Turn.consumer, Turn.producer, Turn.producer, Turn.consumer,
           Turn.consumer]).pending = [evTestStart "counter", evComplete] ∧
      (((Bridge.start [evTestStart "counter", evComplete]).run
          [Turn.producer, Turn.consumer, Turn.producer, Turn.producer, Turn.consumer,
           Turn.consumer]).chan.buf = [] ∧
        ((Bridge.start [evTestStart "counter", evComplete]).run
          [Turn.producer, Turn.consumer, Turn.producer, Turn.producer, Turn.consumer,
           Turn.consumer]).chan.closed = true ∧
        ((Bridge.start [evTestStart "counter", evComplete]).run
          [Turn.producer, Turn.consumer, Turn.producer, Turn.producer, Turn.consumer,
           Turn.consumer]).pending = []) ∧
      List.Perm
        (((Bridge.start oneTooMany).run
            (List.replicate 102 Turn.producer ++ List.replicate 101 Turn.consumer)).receivedEvents ++
          ((Bridge.start oneTooMany).run
            (List.replicate 102 Turn.producer ++ List.replicate 101 Turn.consumer)).chan.buf ++
          ((Bridge.start oneTooMany).run
            (List.replicate 102 Turn.producer ++ List.replicate 101 Turn.consumer)).pending ++
          (Bridge.start oneTooMany).dropped
            (List.replicate 102 Turn.producer ++ List.replicate 101 Turn.consumer))
        oneTooMany ∧
      ((Bridge.start oneTooMany).run
          (List.replicate 102 Turn.producer ++ List.replicate 101 Turn.consumer)).receivedEvents =
        oneTooMany.take 100 ∧
      (Bridge.start oneTooMany).dropped
          (List.replicate 102 Turn.producer ++ List.replicate 101 Turn.consumer) =
        oneTooMany.drop 100 :=
  ⟨(C14_order_preserved [evTestStart "counter", evComplete]
      [Turn.producer, Turn.consumer, Turn.producer, Turn.producer, Turn.consumer,
       Turn.consumer]).2.2.1
      ((C14_order_preserved [evTestStart "counter", evComplete]
        [Turn.producer, Turn.consumer, Turn.producer, Turn.producer, Turn.consumer,
         Turn.consumer]).2.2.2.1 (by decide)),
   (C14_order_preserved [evTestStart "counter", evComplete]
      [Turn.producer, Turn.consumer, Turn.producer, Turn.producer, Turn.consumer,
       Turn.consumer]).2.2.2.2.2.1 (by decide),
   (C14_order_preserved oneTooMany
      (List.replicate 102 Turn.producer ++ List.replicate 101 Turn.consumer)).2.1,
   by decide, by decide⟩

set_option maxRecDepth 100000 in
/-- C15 (as stated, refuted): in the queue-overflow run (150 events offered before
the consumer pulls, then the worker exits with status 1) the queue is full when
the synthesized `Error` event is offered; it is dropped, the consumer receives
100 events and the closed sentinel, no error is recorded and the run is marked
completed. -/
theorem C15_counterexample :
    producerEvents scenarioUnmarshal overflowRun =
        List.replicate 150 (evSampleProgress "counter" 1 10) ++
          [evError "command failed: exit status 1"] ∧
      runBenchmark scenarioUnmarshal overflowRun Chan.empty =
        ⟨List.replicate 100 (evSampleProgress "counter" 1 10), true⟩ ∧
      ((Bridge.start (producerEvents scenarioUnmarshal overflowRun)).run
          (List.replicate 152 Turn.producer ++ List.replicate 101 Turn.consumer)).received =
        List.replicate 100 (Msg.benchmarkEventMsg (evSampleProgress "counter" 1 10)) ++
          [Msg.benchmarkCompleteMsg] ∧
      (presentationLoop (NewBenchmarkModel {})
        (runBenchmark scenarioUnmarshal overflowRun Chan.empty)).state.Error = "" ∧
      (presentationLoop (NewBenchmarkModel {})
        (runBenchmark scenarioUnmarshal overflowRun Chan.empty)).state.Completed = true := by
  decide

/-- C15 (amended): for every run the producer goroutine ends by closing the
channel, and the presentation loop then handles the buffered events and
receives the closed sentinel, which marks the run completed.  When the worker
run fails, the synthesized `Error` event is enqueued exactly when the queue holds
fewer than 100 events at that moment; it is then the last event delivered before
the closed sentinel and its text is the error recorded.  When the queue holds 100
events the `Error` event is dropped and the channel is closed with its contents
unchanged. -/
theorem C15_terminal_signal (unmarshal : String → Option BenchmarkEvent) (run : WorkerRun)
    (m : BenchmarkModel) (ch : Chan) (text : String) :
    (runBenchmark unmarshal run ch).closed = true ∧
      presentationLoop m ch.close =
        .results (NewResultsModel { (handleEvents m ch.buf).state with Completed := true }) ∧
      (ch.buf.length < 100 →
        ((ch.offer { Typ := EventError, Error := text }).close).buf =
            ch.buf ++ [{ Typ := EventError, Error := text }] ∧
          (presentationLoop m (ch.offer { Typ := EventError, Error := text }).close).state.Error
            = text) ∧
      (ch.buf.length = 100 →
        (ch.offer { Typ := EventError, Error := text }).close = ch.close) := by
  refine ⟨?_, ?_, ?_, ?_⟩
  · rw [runBenchmark_eq]; rfl
  · exact presentationLoop_closed m ch.buf
  · intro h
    refine ⟨?_, presentationLoop_error_last m ch text h⟩
    rw [Chan.offer_of_room _ _ h]; rfl
  · intro h
    exact offer_error_full ch text h

theorem C15_terminal_signal_witness :
    ((Chan.empty.offer { Typ := EventError, Error := "command failed: exit status 1" }).close).buf =
          Chan.empty.buf ++ [{ Typ := EventError, Error := "command failed: exit status 1" }] ∧
        (presentationLoop (NewBenchmarkModel {})
          (Chan.empty.offer
            { Typ := EventError, Error := "command failed: exit status 1" }).close).state.Error
          = "command failed: exit status 1" ∧
      (fullChan.offer { Typ := EventError, Error := "command failed: exit status 1" }).close =
        fullChan.close :=
  ⟨((C15_terminal_signal scenarioUnmarshal overflowRun (NewBenchmarkModel {}) Chan.empty
      "command failed: exit status 1").2.2.1 (by decide)).1,
   ((C15_terminal_signal scenarioUnmarshal overflowRun (NewBenchmarkModel {}) Chan.empty
      "command failed: exit status 1").2.2.1 (by decide)).2,
   (C15_terminal_signal scenarioUnmarshal overflowRun (NewBenchmarkModel {}) fullChan
      "command failed: exit status 1").2.2.2 (by decide)⟩

/-- C16 (as stated, refuted): the worker prints `Error{error: "boom"}` and then
exits with status 1 and `trace` on standard error; both `Error` events are
delivered, and the error left in the shared state is the synthesized text, not
`boom`. -/
theorem C16_counterexample :
    producerEvents scenarioUnmarshal errorThenExitRun =
        [evError "boom", evError "command failed: exit status 1\nstderr: trace"] ∧
      (presentationLoop (NewBenchmarkModel {})
        (runBenchmark scenarioUnmarshal errorThenExitRun Chan.empty)).state.Error =
        "command failed: exit status 1\nstderr: trace" ∧
      ¬ ((presentationLoop (NewBenchmarkModel {})
        (runBenchmark scenarioUnmarshal errorThenExitRun Chan.empty)).state.Error = "boom") := by
  decide

/-- C16 (amended): last error wins.  When the started worker terminates with
failure, `RunBenchmark` returns the `command failed` error whatever events were
observed on the output stream, an `Error` event included; the goroutine offers
it as a further `Error` event, and when the queue has room it is delivered last
and its text replaces any error recorded before. -/
theorem C16_last_error_wins (unmarshal : String → Option BenchmarkEvent) (stdout : Scanner)
    (waitErr stderrText : String) (stderrReady : Bool) (m : BenchmarkModel) (ch : Chan)
    (hroom : ch.buf.length < 100) :
    (RunBenchmark unmarshal
        { stdout := stdout, waitErr := some waitErr, stderrText := stderrText,
          stderrReady := stderrReady } recordCall []).2 =
      some (if stderrReady then "command failed: " ++ waitErr ++ "\nstderr: " ++ stderrText
            else "command failed: " ++ waitErr) ∧
      (producerEvents unmarshal
        { stdout := stdout, waitErr := some waitErr, stderrText := stderrText,
          stderrReady := stderrReady }).getLast? =
        some { Typ := EventError,
               Error := if stderrReady then
                          "command failed: " ++ waitErr ++ "\nstderr: " ++ stderrText
                        else "command failed: " ++ waitErr } ∧
      ∀ text : String,
        (presentationLoop m (ch.offer { Typ := EventError, Error := text }).close).state.Error
          = text := by
  have h := RunBenchmark_waitErr unmarshal stdout waitErr stderrText stderrReady recordCall []
  refine ⟨h, ?_, fun text => presentationLoop_error_last m ch text hroom⟩
  unfold producerEvents
  simp only [h]
  simp

theorem C16_last_error_wins_witness :
    (RunBenchmark scenarioUnmarshal
        { stdout := ⟨[errorLine], none⟩, waitErr := some "exit status 1", stderrText := "trace",
          stderrReady := true } recordCall []).2 =
      some (if true then "command failed: " ++ "exit status 1" ++ "\nstderr: " ++ "trace"
            else "command failed: " ++ "exit status 1") ∧
      (producerEvents scenarioUnmarshal
        { stdout := ⟨[errorLine], none⟩, waitErr := some "exit status 1", stderrText := "trace",
          stderrReady := true }).getLast? =
        some { Typ := EventError,
               Error := if true then
                          "command failed: " ++ "exit status 1" ++ "\nstderr: " ++ "trace"
                        else "command failed: " ++ "exit status 1" } ∧
      ∀ text : String,
        (presentationLoop (NewBenchmarkModel {})
          ((Chan.offer ⟨[evError "boom"], false⟩
            { Typ := EventError, Error := text }).close)).state.Error = text :=
  C16_last_error_wins scenarioUnmarshal ⟨[errorLine], none⟩ "exit status 1" "trace" true
    (NewBenchmarkModel {}) ⟨[evError "boom"], false⟩ (by decide)

/-- What `RunBenchmark` returns when the started worker exits non-zero, by the
outcome of the poll of `stderrChan` after `cmd.Wait`: if the captured standard
error text `s` has been delivered, the error is `command failed: <exit
condition>`, a line break, `stderr: ` and `s`, it contains `s` verbatim, and it
is the text of the synthesized terminal `Error` event; if the text has not been
delivered, the error is `command failed: <exit condition>` alone. -/
theorem RunBenchmark_stderr_outcomes (unmarshal : String → Option BenchmarkEvent)
    (stdout : Scanner) (waitErr s : String) :
    (RunBenchmark unmarshal
        { stdout := stdout, waitErr := some waitErr, stderrText := s, stderrReady := true }
        recordCall []).2 = some ("command failed: " ++ waitErr ++ "\nstderr: " ++ s) ∧
      containsText ("command failed: " ++ waitErr ++ "\nstderr: " ++ s) s ∧
      (producerEvents unmarshal
        { stdout := stdout, waitErr := some waitErr, stderrText := s, stderrReady := true
        }).getLast? =
        some { Typ := EventError, Error := "command failed: " ++ waitErr ++ "\nstderr: " ++ s } ∧
      (RunBenchmark unmarshal
        { stdout := stdout, waitErr := some waitErr, stderrText := s, stderrReady := false }
        recordCall []).2 = some ("command failed: " ++ waitErr) := by
  have h1 := RunBenchmark_waitErr unmarshal stdout waitErr s true recordCall []
  have h2 := RunBenchmark_waitErr unmarshal stdout waitErr s false recordCall []
  simp only [if_true] at h1
  refine ⟨h1, ?_, ?_, by simpa using h2⟩
  · unfold containsText
    exact ⟨("command failed: " ++ waitErr ++ "\nstderr: ").data, [], by simp [String.data_append]⟩
  · unfold producerEvents
    simp only [h1]
    simp

/-- C17 (evaluation at the failing input): the worker prints one event, writes
`rate limit exceeded` to standard error and exits with status 1, without an
`Error` event on standard output.  When the captured text has not reached
`stderrChan` as `RunBenchmark` polls it after `cmd.Wait`, the returned error,
and with it the text of the synthesized terminal `Error` event, is
`command failed: exit status 1`, which does not contain the standard error
text; the same run with the text delivered in time returns an error that does
contain it. -/
theorem C17_stderr_text_missing :
    (rateLimitExitRun false).stderrText = "rate limit exceeded" ∧
      (rateLimitExitRun false).waitErr = some "exit status 1" ∧
      (RunBenchmark scenarioUnmarshal (rateLimitExitRun false) recordCall []).1 =
        [evSampleProgress "counter" 1 10] ∧
      (RunBenchmark scenarioUnmarshal (rateLimitExitRun false) recordCall []).2 =
        some "command failed: exit status 1" ∧
      producerEvents scenarioUnmarshal (rateLimitExitRun false) =
        [evSampleProgress "counter" 1 10, evError "command failed: exit status 1"] ∧
      ¬ containsText "command failed: exit status 1" "rate limit exceeded" ∧
      (RunBenchmark scenarioUnmarshal (rateLimitExitRun true) recordCall []).2 =
        some "command failed: exit status 1\nstderr: rate limit exceeded" ∧
      containsText "command failed: exit status 1\nstderr: rate limit exceeded"
        "rate limit exceeded" := by
  decide

/-- C18 (evaluation at the failing input): the worker writes the plain-text line
`npm warn`, a line of 70000 bytes that is not JSON, and a line that decodes, and
the stream ends without a read error.  `ParseEventStream` returns the error
`error reading stream: bufio.Scanner: token too long` and never calls the
handler: the line that does not decode is surfaced as an error and keeps the
later line from being decoded and delivered.  The same stream without the long
line gives one call and no error. -/
theorem C18_long_line_surfaces_error :
    (OutputStream.mk ["npm warn", longLine, sampleLine] none).readErr = none ∧
      scenarioUnmarshal longLine = none ∧
      scenarioUnmarshal sampleLine = some (evSampleProgress "counter" 1 10) ∧
      ParseEventStream scenarioUnmarshal (NewScanner ⟨["npm warn", longLine, sampleLine], none⟩)
          recordCall [] =
        ([], some "error reading stream: bufio.Scanner: token too long") ∧
      ParseEventStream scenarioUnmarshal (NewScanner ⟨["npm warn", sampleLine], none⟩)
          recordCall [] =
        ([evSampleProgress "counter" 1 10], none) := by
  have hscan : NewScanner ⟨["npm warn", longLine, sampleLine], none⟩ =
      ⟨["npm warn"], some "bufio.Scanner: token too long"⟩ :=
    scanLines_long none ["npm warn"] [sampleLine] longLine (by decide)
      (by rw [longLine_size]; decide)
  refine ⟨rfl, scenarioUnmarshal_longLine, by decide, ?_, by decide⟩
  rw [hscan]; decide

/-- C20 (as stated, refuted): a freshly created model that has handled
`benchmarkStartMsg` is running with a start time and no sample completed; its
stats line shows the elapsed time, not the `Starting...` text. -/
theorem C20_counterexample :
    Update (NewBenchmarkModel {}) (.benchmarkStartMsg 1000) = (.benchmark startedModel, .none) ∧
      startedModel.currentCount = 0 ∧
      statsLine startedModel "5s" "" = "⏱ 5s Elapsed" ∧
      ¬ (statsLine startedModel "5s" "" = "⏱ Starting...") := by
  decide

/-- C20 (amended): before any sample completes (global completed-sample count 0)
the stats line never shows a remaining-time figure: it is the `Starting...`
text when the model is not running or has no start time, and the elapsed time
alone, `⏱ <elapsed> Elapsed`, in a running state with a start time set. -/
theorem C20_stats_before_first_sample (m : BenchmarkModel) (elapsedStr remaining : String)
    (hcount : m.currentCount = 0) :
    (m.running = true ∧ m.startTime.isSome = true →
        statsLine m elapsedStr remaining = "⏱ " ++ elapsedStr ++ " Elapsed") ∧
      (¬ (m.running = true ∧ m.startTime.isSome = true) →
        statsLine m elapsedStr remaining = "⏱ Starting...") := by
  constructor
  · intro h
    simp [statsLine, h.1, h.2, hcount]
  · intro h
    unfold statsLine
    rw [if_neg]
    simpa using h

theorem C20_stats_before_first_sample_witness :
    statsLine startedModel "5s" "4m30s" = "⏱ " ++ "5s" ++ " Elapsed" ∧
      statsLine (NewBenchmarkModel {}) "5s" "4m30s" = "⏱ Starting..." :=
  ⟨(C20_stats_before_first_sample startedModel "5s" "4m30s" rfl).1 (by decide),
   (C20_stats_before_first_sample (NewBenchmarkModel {}) "5s" "4m30s" rfl).2 (by decide)⟩

/-- C21: for every configuration the environment handed to the worker is the
inherited environment followed by exactly these entries, in this order: one
`KEY=VALUE` entry per configured secret, `TUI_MODE=true`, `DEBUG_MODE=true`,
`DEBUG_PROVIDER=<provider>`, `DEBUG_MODEL=<model>`, `DEBUG_SAMPLES=<samples>`,
and `PARALLEL_EXECUTION=true` when the parallel flag is set and nothing more
when it is not. -/
theorem C21_worker_environment (projectRoot : String) (environ : List String)
    (logOpen : Bool) (config : BenchmarkConfig) :
    (RunBenchmark.setup projectRoot environ logOpen config).env =
      environ ++ config.APIKeys.map (fun kv => kv.1 ++ "=" ++ kv.2) ++
        ["TUI_MODE=true", "DEBUG_MODE=true", "DEBUG_PROVIDER=" ++ config.Provider,
         "DEBUG_MODEL=" ++ config.Model, "DEBUG_SAMPLES=" ++ toString config.Samples] ++
        (if config.Parallel then ["PARALLEL_EXECUTION=true"] else []) := by
  unfold RunBenchmark.setup
  simp only [setup_keys_loop]
  cases logOpen <;> cases hp : config.Parallel <;>
    simp [Setup.logf, Setup.appendEnv, List.append_assoc]

/-- C22: the text written to the debug log before the worker starts does not
depend on the secret values: two configurations that agree on provider, model,
sample count, parallel flag and the names of the secrets produce the same log
text, whatever the values of their secrets; when the log is open each secret is
represented in it by the line `ENV: <name>=***` and the log is the header,
these lines and the lines of the fixed environment entries. -/
theorem C22_log_independent_of_secrets (projectRoot : String) (environ₁ environ₂ : List String)
    (logOpen : Bool) (c₁ c₂ : BenchmarkConfig)
    (hprov : c₁.Provider = c₂.Provider) (hmodel : c₁.Model = c₂.Model)
    (hsamples : c₁.Samples = c₂.Samples) (hpar : c₁.Parallel = c₂.Parallel)
    (hnames : c₁.APIKeys.map Prod.fst = c₂.APIKeys.map Prod.fst) :
    (RunBenchmark.setup projectRoot environ₁ logOpen c₁).log =
        (RunBenchmark.setup projectRoot environ₂ logOpen c₂).log ∧
      (RunBenchmark.setup projectRoot environ₁ true c₁).log =
        "=== TUI Debug Log ===\n" ++ "Project root: " ++ projectRoot ++ "\n" ++
          "Provider: " ++ c₁.Provider ++ "\n" ++ "Model: " ++ c₁.Model ++ "\n" ++
          "Samples: " ++ toString c₁.Samples ++ "\n" ++
          "Parallel: " ++ toString c₁.Parallel ++ "\n" ++
          "Command: pnpm run-tests\n" ++ "Working directory: " ++ projectRoot ++ "\n\n" ++
          secretLogLines (c₁.APIKeys.map Prod.fst) ++
          "ENV: TUI_MODE=true\n" ++ "ENV: DEBUG_MODE=true\n" ++
          "ENV: DEBUG_PROVIDER=" ++ c₁.Provider ++ "\n" ++
          "ENV: DEBUG_MODEL=" ++ c₁.Model ++ "\n" ++
          "ENV: DEBUG_SAMPLES=" ++ toString c₁.Samples ++ "\n" ++
          (if c₁.Parallel then "ENV: PARALLEL_EXECUTION=true\n" else "") ++
          "\n=== Starting command ===\n" ∧
      (RunBenchmark.setup projectRoot environ₁ false c₁).log = "" := by
  refine ⟨?_, ?_, ?_⟩
  · unfold RunBenchmark.setup
    simp only [setup_keys_loop, hprov, hmodel, hsamples, hpar, hnames]
    cases logOpen <;> cases c₂.Parallel <;> simp [Setup.logf, Setup.appendEnv]
  · unfold RunBenchmark.setup
    simp only [setup_keys_loop]
    cases c₁.Parallel <;>
      simp only [Setup.logf, Setup.appendEnv, String.append_assoc, String.empty_append,
        String.append_empty, if_true, if_false, Bool.false_eq_true]
  · unfold RunBenchmark.setup
    simp only [setup_keys_loop]
    cases c₁.Parallel <;> simp [Setup.logf, Setup.appendEnv]

theorem C22_log_independent_of_secrets_witness :
    (RunBenchmark.setup "/repo" ["PATH=/usr/bin"] true (sampleConfig "sk-live-1" "sk-ant-2")).log =
      (RunBenchmark.setup "/repo" ["PATH=/usr/bin"] true (sampleConfig "other" "")).log :=
  (C22_log_independent_of_secrets "/repo" ["PATH=/usr/bin"] ["PATH=/usr/bin"] true
    (sampleConfig "sk-live-1" "sk-ant-2") (sampleConfig "other" "") rfl rfl rfl rfl rfl).1

/-- C23: `NewBenchmarkModel` creates exactly one entry per known test name, with
status Queued and current count 0, and in every state reached by any sequence of
`handleEvent` calls the tracked test names are exactly that initial set: no
entry is added and none is removed. -/
theorem C23_tests_never_destroyed (s : SharedState) (events : List BenchmarkEvent) :
    (NewBenchmarkModel s).tests.keys = testNames ∧
      testNames.Nodup ∧
      (∀ name ∈ testNames,
        (NewBenchmarkModel s).tests.get name =
          some { TestName := name, Total := 10, Current := 0, Status := StatusQueued }) ∧
      (handleEvents (NewBenchmarkModel s) events).tests.keys = testNames ∧
      (∀ k, ((handleEvents (NewBenchmarkModel s) events).tests.get k).isSome = true ↔
        k ∈ testNames) := by
  have h0 : (NewBenchmarkModel s).tests.keys = testNames := rfl
  have h1 : (handleEvents (NewBenchmarkModel s) events).tests.keys = testNames := by
    rw [handleEvents_keys, h0]
  refine ⟨h0, by decide, ?_, h1, ?_⟩
  · intro name h
    exact get_initial testNames name h
  · intro k
    rw [TestMap.get_isSome_iff, h1]

theorem C23_tests_never_destroyed_witness :
    (NewBenchmarkModel {}).tests.get "counter" =
        some { TestName := "counter", Total := 10, Current := 0, Status := StatusQueued } ∧
      ((handleEvents (NewBenchmarkModel {})
        [evTestStart "counter", evTestStart "ghost"]).tests.get "ghost").isSome = false :=
  ⟨(C23_tests_never_destroyed {} []).2.2.1 "counter" (by decide),
   by
    have h := (C23_tests_never_destroyed {} [evTestStart "counter", evTestStart "ghost"]).2.2.2.2
      "ghost"
    cases hs : ((handleEvents (NewBenchmarkModel {})
        [evTestStart "counter", evTestStart "ghost"]).tests.get "ghost").isSome with
    | false => rfl
    | true => exact absurd (h.mp hs) (by decide)⟩

/-- C26: `handleEvent` is the identity on events it does not recognise: an event
whose type is none of the six known kinds, and a `TestStart`, `SampleProgress`
or `TestComplete` event naming a test that is not tracked, return the model
unchanged, so every `TestState`, the global counter, the running flag, the error
text and `Results` are what they were. -/
theorem C26_unrecognised_events (m : BenchmarkModel) (ev : BenchmarkEvent) :
    (ev.Typ ≠ EventTestStart ∧ ev.Typ ≠ EventSampleProgress ∧ ev.Typ ≠ EventTestComplete ∧
        ev.Typ ≠ EventRateLimit ∧ ev.Typ ≠ EventError ∧ ev.Typ ≠ EventComplete →
        handleEvent m ev = m) ∧
      ((ev.Typ = EventTestStart ∨ ev.Typ = EventSampleProgress ∨ ev.Typ = EventTestComplete) ∧
        m.tests.get ev.Test = none → handleEvent m ev = m) := by
  constructor
  · rintro ⟨h1, h2, h3, h4, h5, h6⟩
    exact handleEvent_unknown m ev h1 h2 h3 h4 h5 h6
  · rintro ⟨hty, hget⟩
    exact handleEvent_untracked m ev hty hget

theorem C26_unrecognised_events_witness :
    handleEvent (NewBenchmarkModel {}) { Typ := "progress", Test := "counter", Sample := 3 } =
        NewBenchmarkModel {} ∧
      handleEvent (NewBenchmarkModel {}) (evSampleProgress "ghost" 3 10) = NewBenchmarkModel {} :=
  ⟨(C26_unrecognised_events (NewBenchmarkModel {})
      { Typ := "progress", Test := "counter", Sample := 3 }).1 (by decide),
   (C26_unrecognised_events (NewBenchmarkModel {}) (evSampleProgress "ghost" 3 10)).2
      ⟨Or.inr (Or.inl rfl), rfl⟩⟩

/-- C27: a `TestStart`, `SampleProgress` or `TestComplete` event naming test `t`
leaves the `TestState` of every other test unchanged, and no event of a kind
other than `SampleProgress` changes the global sample counter. -/
theorem C27_frame (m : BenchmarkModel) (ev : BenchmarkEvent) :
    ((ev.Typ = EventTestStart ∨ ev.Typ = EventSampleProgress ∨ ev.Typ = EventTestComplete) →
        ∀ k, k ≠ ev.Test → (handleEvent m ev).tests.get k = m.tests.get k) ∧
      (ev.Typ ≠ EventSampleProgress → (handleEvent m ev).currentCount = m.currentCount) := by
  constructor
  · intro hty k hk
    exact handleEvent_other_test m ev k hty hk
  · intro hty
    exact handleEvent_count_kept m ev hty

theorem C27_frame_witness :
    (handleEvent (NewBenchmarkModel {}) (evSampleProgress "counter" 3 10)).tests.get "each" =
        (NewBenchmarkModel {}).tests.get "each" ∧
      (handleEvent (NewBenchmarkModel {}) (evTestStart "counter")).currentCount =
        (NewBenchmarkModel {}).currentCount :=
  ⟨(C27_frame (NewBenchmarkModel {}) (evSampleProgress "counter" 3 10)).1
      (Or.inr (Or.inl rfl)) "each" (by decide),
   (C27_frame (NewBenchmarkModel {}) (evTestStart "counter")).2 (by decide)⟩

/-- C29: `Results` is written only by a `Complete` event: along every event
sequence without a `Complete` event it keeps the value it had, the empty list
for a run started on a fresh shared state, and it still has that value when the
queue-closed sentinel has marked the run completed. -/
theorem C29_results_only_by_complete (m : BenchmarkModel) (events : List BenchmarkEvent)
    (hno : ∀ e ∈ events, e.Typ ≠ EventComplete) :
    (handleEvents m events).state.Results = m.state.Results ∧
      (presentationLoop m ⟨events, true⟩).state.Results = m.state.Results ∧
      (presentationLoop m ⟨events, true⟩).state.Completed = true ∧
      (NewBenchmarkModel {}).state.Results = [] := by
  have h := handleEvents_results_kept events m hno
  refine ⟨h, ?_, ?_, rfl⟩
  · rw [presentationLoop_closed]; simpa [Model.state, NewResultsModel] using h
  · rw [presentationLoop_closed]; simp [Model.state, NewResultsModel]

theorem C29_results_only_by_complete_witness :
    (handleEvents (NewBenchmarkModel {})
        [evTestStart "counter", evTestComplete "counter" true 1]).state.Results =
        (NewBenchmarkModel {}).state.Results ∧
      (presentationLoop (NewBenchmarkModel {})
        ⟨[evTestStart "counter", evTestComplete "counter" true 1], true⟩).state.Results =
        (NewBenchmarkModel {}).state.Results ∧
      (presentationLoop (NewBenchmarkModel {})
        ⟨[evTestStart "counter", evTestComplete "counter" true 1], true⟩).state.Completed
        = true ∧
      (NewBenchmarkModel {}).state.Results = [] :=
  C29_results_only_by_complete (NewBenchmarkModel {})
    [evTestStart "counter", evTestComplete "counter" true 1] (by decide)

/-- C24: `MaskAPIKey` shows only the last 8 characters of a key, a character
being a byte as in Go's `len` and slicing.  For a key of length n > 8 the result
is n-8 bullets followed by exactly the last 8 bytes of the key; for a key of
length n ≤ 8 it is n bullets, made of bullet bytes only and the same for every
key of that length, so that nothing of the key is shown. -/
theorem C24_MaskAPIKey (key : GoString) :
    (8 < key.length →
        MaskAPIKey key = stringsRepeat bullet (key.length - 8) ++ key.drop (key.length - 8) ∧
        (key.drop (key.length - 8)).length = 8 ∧
        key = key.take (key.length - 8) ++ key.drop (key.length - 8) ∧
        (stringsRepeat bullet (key.length - 8)).length = 3 * (key.length - 8)) ∧
      (key.length ≤ 8 →
        MaskAPIKey key = stringsRepeat bullet key.length ∧
        (MaskAPIKey key).length = 3 * key.length ∧
        (∀ b ∈ MaskAPIKey key, b ∈ bullet) ∧
        (∀ other : GoString, other.length = key.length → MaskAPIKey other = MaskAPIKey key)) := by
  constructor
  · intro h
    refine ⟨?_, ?_, ?_, ?_⟩
    · simp [MaskAPIKey, Nat.not_le.mpr h]
    · rw [List.length_drop]; omega
    · exact (List.take_append_drop _ _).symm
    · rw [stringsRepeat_length]; simp [bullet, Nat.mul_comm]
  · intro h
    have hm : MaskAPIKey key = stringsRepeat bullet key.length := by simp [MaskAPIKey, h]
    refine ⟨hm, ?_, ?_, ?_⟩
    · rw [hm, stringsRepeat_length]; simp [bullet, Nat.mul_comm]
    · intro b hb
      rw [hm] at hb
      exact stringsRepeat_mem bullet _ b hb
    · intro other ho
      rw [hm]
      simp [MaskAPIKey, ho, h]

theorem C24_MaskAPIKey_witness :
    MaskAPIKey sampleKey =
        stringsRepeat bullet (sampleKey.length - 8) ++ sampleKey.drop (sampleKey.length - 8) ∧
      MaskAPIKey sampleKey =
        ("••••••••ABCDEFGH".toUTF8.data.toList : GoString) ∧
      MaskAPIKey shortKey = stringsRepeat bullet shortKey.length ∧
      MaskAPIKey shortKey = ("•••••".toUTF8.data.toList : GoString) :=
  ⟨((C24_MaskAPIKey sampleKey).1 (by decide)).1, by decide,
   ((C24_MaskAPIKey shortKey).2 (by decide)).1, by decide⟩

/-- C25: for every non-negative number of seconds `s`, `FormatDuration` equals
the reference definition: `<s>s` when s < 60, `<s/60>m <s%60>s` when
60 ≤ s < 3600, `<s/3600>h <(s/60)%60>m` when s ≥ 3600; the printed components
recompose to exactly `s` when s < 3600 and to a value at most 59 seconds below
`s` otherwise. -/
theorem C25_FormatDuration (s : Nat) :
    FormatDuration (s : Int) = FormatDurationRef s ∧
      (s < 60 → FormatDuration (s : Int) = toString s ++ "s") ∧
      (s < 3600 → s / 60 * 60 + s % 60 = s) ∧
      (3600 ≤ s →
        s / 3600 * 3600 + s / 60 % 60 * 60 ≤ s ∧
        s - (s / 3600 * 3600 + s / 60 % 60 * 60) ≤ 59) := by
  have hd : ((s : Int)).tdiv 60 = ((s / 60 : Nat) : Int) := (Int.ofNat_tdiv s 60).symm
  have hm : ((s : Int)).tmod 60 = ((s % 60 : Nat) : Int) := (Int.ofNat_tmod s 60).symm
  have h3600 : s / 60 / 60 = s / 3600 := by omega
  have hd2 : (((s / 60 : Nat) : Int)).tdiv 60 = ((s / 3600 : Nat) : Int) := by
    rw [← h3600]; exact (Int.ofNat_tdiv (s / 60) 60).symm
  have hm2 : (((s / 60 : Nat) : Int)).tmod 60 = ((s / 60 % 60 : Nat) : Int) :=
    (Int.ofNat_tmod (s / 60) 60).symm
  have hstr : ∀ n : Nat, toString ((n : Nat) : Int) = toString n := fun _ => rfl
  have href : FormatDuration (s : Int) = FormatDurationRef s := by
    unfold FormatDuration FormatDurationRef
    simp only [hd, hm, hd2, hm2, hstr]
    by_cases h1 : s < 60
    · have h1' : (s : Int) < 60 := by exact_mod_cast h1
      rw [if_pos h1', if_pos h1]
    · have h1' : ¬ (s : Int) < 60 := by
        intro h; exact h1 (by exact_mod_cast h)
      by_cases h2 : s < 3600
      · have h2' : ((s / 60 : Nat) : Int) < 60 := by
          have : s / 60 < 60 := by omega
          exact_mod_cast this
        rw [if_neg h1', if_pos h2', if_neg h1, if_pos h2]
      · have h2' : ¬ ((s / 60 : Nat) : Int) < 60 := by
          intro h
          have : s / 60 < 60 := by exact_mod_cast h
          omega
        rw [if_neg h1', if_neg h2', if_neg h1, if_neg h2]
  refine ⟨href, ?_, ?_, ?_⟩
  · intro h
    rw [href]; simp [FormatDurationRef, h]
  · intro _; omega
  · intro _; omega

theorem C25_FormatDuration_witness :
    FormatDuration 45 = "45s" ∧ FormatDuration 754 = "12m 34s" ∧
      FormatDuration 7384 = "2h 3m" ∧
      754 / 60 * 60 + 754 % 60 = 754 ∧
      (7384 / 3600 * 3600 + 7384 / 60 % 60 * 60 ≤ 7384 ∧
        7384 - (7384 / 3600 * 3600 + 7384 / 60 % 60 * 60) ≤ 59) :=
  ⟨(C25_FormatDuration 45).2.1 (by decide), by decide, by decide,
   (C25_FormatDuration 754).2.2.1 (by decide), (C25_FormatDuration 7384).2.2.2 (by decide)⟩

/-- C30: a rate-limited test does not resume by itself.  For every known test in
status RateLimited, any sequence of `SampleProgress` and `RateLimit` events
leaves its state as it was except for the current count, its status still
RateLimited; and a single event of any kind leaves the status RateLimited unless
it is a `TestStart` or `TestComplete` event naming the test. -/
theorem C30_rateLimited_stays (m : BenchmarkModel) (t : String) (tr : TestResult)
    (events : List BenchmarkEvent) (ev : BenchmarkEvent)
    (hget : m.tests.get t = some tr) (hst : tr.Status = StatusRateLimit)
    (hty : ∀ e ∈ events, e.Typ = EventSampleProgress ∨ e.Typ = EventRateLimit) :
    (∃ c, (handleEvents m events).tests.get t = some { tr with Current := c }) ∧
      statusOf (handleEvents m events) t = some StatusRateLimit ∧
      (¬ ((ev.Typ = EventTestStart ∨ ev.Typ = EventTestComplete) ∧ ev.Test = t) →
        statusOf (handleEvent m ev) t = some StatusRateLimit) := by
  obtain ⟨c, hc⟩ := rateLimited_steps events m t tr hty hget hst
  refine ⟨⟨c, hc⟩, ?_, ?_⟩
  · simp [statusOf, hc, hst]
  · intro hev
    rw [← hst]
    exact status_kept m ev t tr hget (by rw [hst]; decide) hev

theorem C30_rateLimited_stays_witness :
    (∃ c, (handleEvents
          (handleEvents (NewBenchmarkModel {}) [evTestStart "counter", evRateLimit 30])
          [evSampleProgress "counter" 4 10, evRateLimit 5]).tests.get "counter" =
        some { ({ TestName := "counter", Total := 10, Current := 0, Status := StatusRateLimit,
                  RetryAfter := 30 } : TestResult) with Current := c }) ∧
      statusOf (handleEvents
          (handleEvents (NewBenchmarkModel {}) [evTestStart "counter", evRateLimit 30])
          [evSampleProgress "counter" 4 10, evRateLimit 5]) "counter" = some StatusRateLimit ∧
      statusOf (handleEvent
          (handleEvents (NewBenchmarkModel {}) [evTestStart "counter", evRateLimit 30])
          (evTestStart "each")) "counter" = some StatusRateLimit :=
  ⟨(C30_rateLimited_stays
      (handleEvents (NewBenchmarkModel {}) [evTestStart "counter", evRateLimit 30]) "counter"
      { TestName := "counter", Total := 10, Current := 0, Status := StatusRateLimit,
        RetryAfter := 30 }
      [evSampleProgress "counter" 4 10, evRateLimit 5] (evTestStart "each")
      rfl rfl (by decide)).1,
   (C30_rateLimited_stays
      (handleEvents (NewBenchmarkModel {}) [evTestStart "counter", evRateLimit 30]) "counter"
      { TestName := "counter", Total := 10, Current := 0, Status := StatusRateLimit,
        RetryAfter := 30 }
      [evSampleProgress "counter" 4 10, evRateLimit 5] (evTestStart "each")
      rfl rfl (by decide)).2.1,
   (C30_rateLimited_stays
      (handleEvents (NewBenchmarkModel {}) [evTestStart "counter", evRateLimit 30]) "counter"
      { TestName := "counter", Total := 10, Current := 0, Status := StatusRateLimit,
        RetryAfter := 30 }
      [evSampleProgress "counter" 4 10, evRateLimit 5] (evTestStart "each")
      rfl rfl (by decide)).2.2 (by decide)⟩

/-- C28 (as stated, refuted): the worker runs the test `ghost`, which is not one of
the known tests: `TestStart{ghost}`, then `SampleProgress{ghost, sample:1}`.
Every known test receives no event at all, which fits the pattern, and one
`SampleProgress` event is processed, but the global sample counter stays 0:
`handleEvent` counts a sample only when the test it names is tracked. -/
theorem C28_counterexample :
    (∀ t ∈ testNames, PerTestPattern (eventsOf t ghostRun)) ∧
      (∀ t ∈ testNames, eventsOf t ghostRun = []) ∧
      sampleProgressCount ghostRun = 1 ∧
      (handleEvents (NewBenchmarkModel {}) ghostRun).currentCount = 0 ∧
      ¬ ((handleEvents (NewBenchmarkModel {}) ghostRun).currentCount =
          sampleProgressCount ghostRun) := by
  refine ⟨ghostRun_pattern, by decide, by decide, by decide, by decide⟩

/-- C28 (amended): for every sequence of events, of any kinds and naming any
tests, processed from `NewBenchmarkModel`, in which each known test receives at
most one `TestStart`, followed by `SampleProgress` events with strictly
increasing indices within 1..10, followed by at most one `TestComplete`, the
events of different tests interleaved in any way, the global sample counter
equals, after every prefix of the sequence and at its end, the number of
`SampleProgress` events processed that name a known test, and it never exceeds
the total-sample target, which is 90.  When every `SampleProgress` event of the
sequence names a known test, the counter equals the number of `SampleProgress`
events processed, after every prefix and at the end. -/
theorem C28_counter_counts_samples (s : SharedState) (events : List BenchmarkEvent) (n : Nat)
    (hpat : ∀ t ∈ testNames, PerTestPattern (eventsOf t events)) :
    (handleEvents (NewBenchmarkModel s) (events.take n)).currentCount =
        knownSampleCount (events.take n) ∧
      (handleEvents (NewBenchmarkModel s) (events.take n)).currentCount ≤
        (handleEvents (NewBenchmarkModel s) (events.take n)).totalSamples ∧
      (handleEvents (NewBenchmarkModel s) (events.take n)).totalSamples = 90 ∧
      (handleEvents (NewBenchmarkModel s) events).currentCount = knownSampleCount events ∧
      ((∀ e ∈ events, e.Typ = EventSampleProgress → e.Test ∈ testNames) →
        (handleEvents (NewBenchmarkModel s) (events.take n)).currentCount =
          sampleProgressCount (events.take n) ∧
        (handleEvents (NewBenchmarkModel s) events).currentCount =
          sampleProgressCount events) := by
  have hvalid := followsProtocol_of_pattern events hpat
  have htake := followsProtocol_take events (fun _ => Phase.fresh) n hvalid
  obtain ⟨hc, proto', inv'⟩ :=
    followsProtocol_run (events.take n) (NewBenchmarkModel s) _ (ProtoInv_initial s) htake
  obtain ⟨hend, _⟩ :=
    followsProtocol_run events (NewBenchmarkModel s) _ (ProtoInv_initial s) hvalid
  have h0 : (NewBenchmarkModel s).currentCount = 0 := rfl
  have htotal : (handleEvents (NewBenchmarkModel s) (events.take n)).totalSamples = 90 := by
    rw [handleEvents_totalSamples]; rfl
  have hle : (handleEvents (NewBenchmarkModel s) (events.take n)).currentCount ≤ 90 :=
    le_trans inv'.bound (creditSum_le proto' (fun t => (inv'.range t).2))
  have h1 : (handleEvents (NewBenchmarkModel s) (events.take n)).currentCount =
      knownSampleCount (events.take n) := by rw [hc, h0]; simp
  have h2 : (handleEvents (NewBenchmarkModel s) events).currentCount =
      knownSampleCount events := by rw [hend, h0]; simp
  refine ⟨h1, ?_, htotal, h2, ?_⟩
  · rw [htotal]; exact hle
  · intro hknown
    rw [h1, h2, knownSampleCount_eq events hknown,
      knownSampleCount_eq (events.take n) (fun e he => hknown e (List.mem_of_mem_take he))]
    exact ⟨rfl, rfl⟩

theorem C28_counter_counts_samples_witness :
    ((handleEvents (NewBenchmarkModel {}) (mixedRun.take 7)).currentCount =
        knownSampleCount (mixedRun.take 7) ∧
      (handleEvents (NewBenchmarkModel {}) (mixedRun.take 7)).currentCount ≤
        (handleEvents (NewBenchmarkModel {}) (mixedRun.take 7)).totalSamples ∧
      (handleEvents (NewBenchmarkModel {}) (mixedRun.take 7)).totalSamples = 90 ∧
      (handleEvents (NewBenchmarkModel {}) mixedRun).currentCount = knownSampleCount mixedRun) ∧
      knownSampleCount mixedRun = 5 ∧ sampleProgressCount mixedRun = 6 ∧
      ((handleEvents (NewBenchmarkModel {}) (interleavedEvents.take 4)).currentCount =
          sampleProgressCount (interleavedEvents.take 4) ∧
        (handleEvents (NewBenchmarkModel {}) interleavedEvents).currentCount =
          sampleProgressCount interleavedEvents) :=
  ⟨⟨(C28_counter_counts_samples {} mixedRun 7 mixedRun_pattern).1,
      (C28_counter_counts_samples {} mixedRun 7 mixedRun_pattern).2.1,
      (C28_counter_counts_samples {} mixedRun 7 mixedRun_pattern).2.2.1,
      (C28_counter_counts_samples {} mixedRun 7 mixedRun_pattern).2.2.2.1⟩,
    by decide, by decide,
    (C28_counter_counts_samples {} interleavedEvents 4 interleavedEvents_pattern).2.2.2.2
      (by decide)⟩

end SvelteBench
